import Mathlib

/-!
Verification development for the multipart GraphQL upload request processor
(`processRequest` and the `Upload` / `FileUpload` types).

The processor is an event-driven state machine: the busboy multipart
tokenizer (an external collaborator) pushes `field`, `file`, `filesLimit`,
`finish` and `error` events, and the HTTP request / response objects push
`close` events.  We embed the processor shallowly: the mutable closure
variables of `processRequest` (`released`, `exitError`, `operations`, `map`,
the outer promise) become fields of an explicit state record, each event
handler becomes a pure state-transformer translated line by line from the
source, and a run of the processor is a left fold of the step function over
the event trace.

Modelling conventions:
  * A JavaScript promise settles at most once; later calls to its resolve or
    reject capability are no-ops.  `Promise.resolveP` / `Promise.rejectP`
    encode exactly that.
  * `JSON.parse` of a field value is represented by the parse result itself:
    `Option JVal`, with `none` standing for a parse exception.  Parsed JSON
    never contains an `upload` node and never has duplicate object keys.
  * Placeholder identity (reference sharing in the operations tree) is
    represented by a numeric id: the tree stores `JVal.upload id` and the
    placeholder state lives in the field-name table.
  * `ignoreStream` (draining an unwanted stream) and the fs-capacitor spool
    are I/O effects with no influence on the processor state; they are not
    part of the state.  The per-file error slot that the stream `limit` and
    `error` callbacks write is recorded in the `FileUpload` value, and
    `createReadStream` takes the `released` flag and exit error as explicit
    arguments, mirroring the closure capture in the source.
  * The parser is created with `limits: \x7b fields: 2, files: maxFiles \x7d`;
    a destroyed busboy parser emits no further `field` / `file` / `finish` /
    `filesLimit` events, and the source attaches `finish` and `filesLimit`
    with `once` and the close handlers with `once`.  The step function
    encodes these event-delivery facts (a trace event arriving after the
    parser was destroyed, a third field, or a repeated once-event is inert).
  * The object-path collaborator is not part of the repository; `setPath`
    and `getPath` are modelled from the spec: a path string is split on
    dots, canonical numeral segments address array indices, other segments
    address object keys, and an out-of-range index, a type-mismatched
    segment or traversal through a non-container raises (returns `none`).
-/

set_option maxRecDepth 4000

namespace GraphQLUpload

/-- An error created by the `http-errors` collaborator: an HTTP status code
and a message.  Parser errors that are not built with `createError` carry no
status. -/
structure Err where
  status : Option Nat
  msg : String
deriving DecidableEq, Repr

/-- `createError(status, message)` from the `http-errors` package. -/
def createError (status : Nat) (msg : String) : Err :=
  { status := some status, msg := msg }

/-- The spec URL interpolated into most error messages. -/
def specUrl : String :=
  "https://github.com/jaydenseric/graphql-multipart-request-spec"

/-- A JSON value, extended with `upload id`: a reference to the `Upload`
placeholder with the given id, as substituted into the operations tree.
Values coming out of `JSON.parse` never contain `upload`. -/
inductive JVal where
  | null
  | bool (b : Bool)
  | num (n : Int)
  | str (s : String)
  | arr (elems : List JVal)
  | obj (fields : List (String × JVal))
  | upload (id : Nat)

/-- `typeof v === "object" && v !== null` for a parsed JSON value: exactly
the plain objects and the arrays. -/
def isObjOrArr : JVal → Bool
  | .obj _ => true
  | .arr _ => true
  | _ => false

/-- `typeof v === "object" && v !== null && !Array.isArray(v)`: a plain
object. -/
def isPlainObj : JVal → Bool
  | .obj _ => true
  | _ => false

/-- One parsed segment of an object path: an object key or an array index. -/
inductive Seg where
  | key (s : String)
  | idx (n : Nat)
deriving DecidableEq, Repr

/-- Numeric value of a list of decimal digit characters. -/
def natVal (cs : List Char) : Nat :=
  cs.foldl (fun a c => a * 10 + (c.toNat - 48)) 0

/-- A canonical decimal numeral: nonempty, all digits, no leading zero
(except the single digit `0`).  Exactly the strings that round-trip through
the numeric conversion the object-path collaborator applies to segments. -/
def canonicalNat : List Char → Bool
  | [] => false
  | c :: rest =>
    c.isDigit && rest.all Char.isDigit && (if c = '0' then rest.isEmpty else true)

/-- Parse one path segment: canonical numerals become array indices, all
other segments are object keys. -/
def segOfChars (cs : List Char) : Seg :=
  if canonicalNat cs then .idx (natVal cs) else .key (String.mk cs)

/-- Split a character list on the dot character. -/
def splitSegs : List Char → List (List Char)
  | [] => [[]]
  | c :: cs =>
    let r := splitSegs cs
    if c = '.' then [] :: r else (c :: r.headD []) :: r.tail

/-- Modelled from the spec: parse a dotted object path such as
`variables.files.0` into segments. -/
def parsePath (p : String) : List Seg :=
  (splitSegs p.data).map segOfChars

/-- Lookup in an association list of JSON object fields. -/
def assocGet : List (String × JVal) → String → Option JVal
  | [], _ => none
  | (k, v) :: rest, k2 => if k = k2 then some v else assocGet rest k2

/-- Update-or-append in an association list of JSON object fields,
preserving the position of an existing key, as property assignment does. -/
def assocSet : List (String × JVal) → String → JVal → List (String × JVal)
  | [], k2, v2 => [(k2, v2)]
  | (k, v) :: rest, k2, v2 =>
    if k = k2 then (k2, v2) :: rest else (k, v) :: assocSet rest k2 v2

/-- Read the value at a parsed path, `none` when the path does not address a
location. -/
def getPath : JVal → List Seg → Option JVal
  | t, [] => some t
  | .obj kvs, .key k :: rest =>
    match assocGet kvs k with
    | some c => getPath c rest
    | none => none
  | .arr xs, .idx n :: rest =>
    match xs[n]? with
    | some c => getPath c rest
    | none => none
  | _, _ :: _ => none

/-- The child an intermediate object segment descends into: the existing
field value, or a freshly created container whose kind is chosen by the
next segment, as the object-path collaborator does. -/
def childFor (kvs : List (String × JVal)) (k : String) (next : Seg) : JVal :=
  match assocGet kvs k with
  | some c => c
  | none =>
    match next with
    | .idx _ => .arr []
    | .key _ => .obj []

/-- Modelled from the spec: the object-path collaborator writing `v` at a
parsed path — a JSON-pointer-style set over nested objects and arrays that
raises (`none`) on an out-of-range index, a type-mismatched segment or
traversal through a non-container. -/
def setPath : JVal → List Seg → JVal → Option JVal
  | t, [], _ => some t
  | .obj kvs, [.key k], v => some (.obj (assocSet kvs k v))
  | .obj kvs, .key k :: next :: rest, v =>
    (match setPath (childFor kvs k next) (next :: rest) v with
     | some c2 => some (.obj (assocSet kvs k c2))
     | none => none)
  | .arr xs, [.idx n], v =>
    if n < xs.length then some (.arr (xs.set n v)) else none
  | .arr xs, .idx n :: next :: rest, v =>
    (match xs[n]? with
     | some c =>
       match setPath c (next :: rest) v with
       | some c2 => some (.arr (xs.set n c2))
       | none => none
     | none => none)
  | _, _ :: _, _ => none

/-- A one-shot JavaScript promise: it settles at most once. -/
inductive Promise (α : Type) where
  | pending
  | resolved (a : α)
  | rejected (e : Err)
deriving DecidableEq, Repr

/-- Calling the resolve capability: a no-op unless still pending. -/
def Promise.resolveP {α : Type} : Promise α → α → Promise α
  | .pending, a => .resolved a
  | p, _ => p

/-- Calling the reject capability: a no-op unless still pending. -/
def Promise.rejectP {α : Type} : Promise α → Err → Promise α
  | .pending, e => .rejected e
  | p, _ => p

/-- Whether the promise has settled (resolved or rejected). -/
def settledB {α : Type} : Promise α → Bool
  | .pending => false
  | _ => true

/-- Whether the promise is rejected. -/
def Promise.isRejectedB {α : Type} : Promise α → Bool
  | .rejected _ => true
  | _ => false

/-- The file upload details handed to a placeholder when its file part
begins streaming (interface `FileUpload` of `src/type/file-upload.ts`).
`fileError` is the per-file error slot of the file handler closure: it ends
up holding the 413 limit error when the stream hit `maxFileSize`, or the
stream error when the upstream stream errored, and stays empty otherwise.
The capacitor spool itself is I/O and carries no processor state. -/
structure FileUpload where
  filename : String
  mimetype : String
  encoding : String
  fileError : Option Err
deriving DecidableEq, Repr

/-- `createReadStream` of the `FileUpload` built by the file handler:
`const error = fileError || (released ? exitError : null); if (error) throw
error; return capacitor.createReadStream(options);`.  The `released` flag
and the exit error are the values those closure variables have at call
time; `.ok ()` stands for the fresh capacitor read stream. -/
def createReadStream (f : FileUpload) (released : Bool) (exitError : Option Err) :
    Except Err Unit :=
  match f.fileError with
  | some e => .error e
  | none =>
    match released, exitError with
    | true, some e => .error e
    | _, _ => .ok ()

/-- The `Upload` class of `src/type/upload.ts`: a one-shot externally
settled future.  `id` is the model-level identity of the instance (the
operations tree stores `JVal.upload id` where the source stores the object
reference).  Calling `resolve` sets `file` and then resolves the promise;
calling `reject` rejects the promise; both are no-ops on a settled
promise. -/
structure Upload where
  id : Nat
  file : Option FileUpload
  promise : Promise FileUpload
deriving DecidableEq, Repr

/-- A fresh `new Upload()`. -/
def newUpload (id : Nat) : Upload :=
  { id := id, file := none, promise := .pending }

/-- `upload.resolve?.(file)`: set `file`, then resolve the promise (a no-op
on a settled promise). -/
def Upload.resolveWith (u : Upload) (f : FileUpload) : Upload :=
  { u with file := some f, promise := u.promise.resolveP f }

/-- `Map.get` over the field-name → placeholder table. -/
def lookupU : List (String × Upload) → String → Option Upload
  | [], _ => none
  | (k, u) :: rest, k2 => if k = k2 then some u else lookupU rest k2

/-- `Map.set` over the field-name → placeholder table (replace-in-place or
append, like a JavaScript `Map`). -/
def tblSet : List (String × Upload) → String → Upload → List (String × Upload)
  | [], k2, u2 => [(k2, u2)]
  | (k, u) :: rest, k2, u2 =>
    if k = k2 then (k2, u2) :: rest else (k, u) :: tblSet rest k2 u2

/-- `if (!upload.file) upload.reject?.(error)` — the per-placeholder action
of the exit sweep and of the finish sweep. -/
def rejectPending (u : Upload) (e : Err) : Upload :=
  if u.file.isSome then u else { u with promise := u.promise.rejectP e }

/-- Sweep the whole table with `rejectPending`. -/
def sweep (tbl : List (String × Upload)) (e : Err) : List (String × Upload) :=
  tbl.map (fun nu => (nu.1, rejectPending nu.2 e))

/-- The options record of `processRequest` (interface
`ProcessRequestOptions`); `none` is the `Infinity` default of a limit. -/
structure ProcessRequestOptions where
  maxFieldSize : Nat
  maxFileSize : Option Nat
  maxFiles : Option Nat
deriving DecidableEq, Repr

/-- The defaults: `maxFieldSize = 1000000`, unbounded file size and count. -/
def defaultOptions : ProcessRequestOptions :=
  { maxFieldSize := 1000000, maxFileSize := none, maxFiles := none }

/-- `n > limit` where the limit may be `Infinity`. -/
def exceeds (n : Nat) : Option Nat → Bool
  | none => false
  | some k => k < n

/-- How a limit prints inside an error message (`Infinity` or the number). -/
def limitStr : Option Nat → String
  | none => "Infinity"
  | some k => toString k

/-- The closure state of one `processRequest` call.  `released`,
`exitError`, `operations` and `map` are the mutable variables of the
source; `result` is the outer promise; `nextId` allocates placeholder
identities; the remaining flags record event-delivery facts (`parser
.destroy()` was called, the once-handlers already ran, how many field
events busboy delivered against its `fields: 2` limit). -/
structure St where
  released : Bool
  exitError : Option Err
  operations : Option JVal
  map : Option (List (String × Upload))
  result : Promise JVal
  nextId : Nat
  parserDestroyed : Bool
  finished : Bool
  fieldCount : Nat
  filesLimitFired : Bool
  requestClosed : Bool
  responseClosed : Bool

/-- The state at the start of a `processRequest` call. -/
def initSt : St :=
  { released := false, exitError := none, operations := none, map := none,
    result := .pending, nextId := 0, parserDestroyed := false,
    finished := false, fieldCount := 0, filesLimitFired := false,
    requestClosed := false, responseClosed := false }

/-- `function exit(error, isParserError)`: exits request processing with an
error; successive calls have no effect.  It records the error, rejects
every placeholder in the table that has no file yet, destroys the parser
(with or without re-emitting the error — both ways the parser is destroyed,
so the flag is all the state model keeps), unpipes and later resumes the
request, and rejects the outer promise. -/
def exit (s : St) (e : Err) (_isParserError : Bool) : St :=
  match s.exitError with
  | some _ => s
  | none =>
    { s with
      exitError := some e,
      map := (s.map.map (fun tbl => sweep tbl e)),
      parserDestroyed := true,
      result := s.result.rejectP e }

/-- Error messages, named for reuse in the theorems. -/
def errFieldTruncated (o : ProcessRequestOptions) (name : String) : Err :=
  createError 413
    ("The ‘" ++ name ++ "’ multipart field value exceeds the " ++
      toString o.maxFieldSize ++ " byte size limit.")

def errOpsJson : Err :=
  createError 400
    ("Invalid JSON in the ‘operations’ multipart field (" ++ specUrl ++ ").")

def errOpsType : Err :=
  createError 400
    ("Invalid type for the ‘operations’ multipart field (" ++ specUrl ++ ").")

def errMapBeforeOps : Err :=
  createError 400
    ("Misordered multipart fields; ‘map’ should follow ‘operations’ (" ++ specUrl ++ ").")

def errMapJson : Err :=
  createError 400
    ("Invalid JSON in the ‘map’ multipart field (" ++ specUrl ++ ").")

def errMapType : Err :=
  createError 400
    ("Invalid type for the ‘map’ multipart field (" ++ specUrl ++ ").")

def errTooManyFiles (o : ProcessRequestOptions) : Err :=
  createError 413 (limitStr o.maxFiles ++ " max file uploads exceeded.")

def errEntryNotArray (fieldName : String) : Err :=
  createError 400
    ("Invalid type for the ‘map’ multipart field entry key ‘" ++ fieldName ++
      "’ array (" ++ specUrl ++ ").")

def errEntryValueType (fieldName : String) (i : Nat) : Err :=
  createError 400
    ("Invalid type for the ‘map’ multipart field entry key ‘" ++ fieldName ++
      "’ array index ‘" ++ toString i ++ "’ value (" ++ specUrl ++ ").")

def errBadPath (fieldName : String) (i : Nat) (p : String) : Err :=
  createError 400
    ("Invalid object path for the ‘map’ multipart field entry key ‘" ++ fieldName ++
      "’ array index ‘" ++ toString i ++ "’ value ‘" ++ p ++ "’ (" ++ specUrl ++ ").")

def errFilesBeforeMap : Err :=
  createError 400
    ("Misordered multipart fields; files should follow ‘map’ (" ++ specUrl ++ ").")

def errFileTooLarge (o : ProcessRequestOptions) : Err :=
  createError 413
    ("File truncated as it exceeds the " ++ limitStr o.maxFileSize ++
      " byte size limit.")

def errMissingOps : Err :=
  createError 400 ("Missing multipart field ‘operations’ (" ++ specUrl ++ ").")

def errMissingMap : Err :=
  createError 400 ("Missing multipart field ‘map’ (" ++ specUrl ++ ").")

def errFileMissing : Err :=
  createError 400 "File missing in the request."

def errDisconnected : Err :=
  createError 499 "Request disconnected during file upload stream parsing."

/-- The inner loop of the `map` case over one entry value: for each path in
the array (with its index), a non-string path or a failing
`operationsPath.set(path, map.get(fieldName))` exits; successful sets
mutate the operations tree in place.  Returns the tree after the
performed sets together with the first error, if any. -/
def bindPaths (ops : JVal) (fieldName : String) (uid : Nat) :
    List JVal → Nat → JVal × Option Err
  | [], _ => (ops, none)
  | p :: rest, i =>
    match p with
    | .str ps =>
      (match setPath ops (parsePath ps) (.upload uid) with
       | some ops2 => bindPaths ops2 fieldName uid rest (i + 1)
       | none => (ops, some (errBadPath fieldName i ps)))
    | _ => (ops, some (errEntryValueType fieldName i))

/-- The loop of the `map` case over `Object.entries(parsedMap)`: for each
entry, a non-array value exits; otherwise one fresh `Upload` is created and
put in the table, and each of its paths is bound.  Returns the operations
tree, the table and the id supply after the processed prefix, and the
first error, if any. -/
def bindEntries (ops : JVal) (tbl : List (String × Upload)) (nid : Nat) :
    List (String × JVal) → JVal × List (String × Upload) × Nat × Option Err
  | [] => (ops, tbl, nid, none)
  | (fieldName, paths) :: rest =>
    match paths with
    | .arr ps =>
      let tbl2 := tblSet tbl fieldName (newUpload nid)
      let bp := bindPaths ops fieldName nid ps 0
      (match bp.2 with
       | none => bindEntries bp.1 tbl2 (nid + 1) rest
       | some e => (bp.1, tbl2, nid + 1, some e))
    | _ => (ops, tbl, nid, some (errEntryNotArray fieldName))

/-- The `field` event handler.  A truncated value exits with the 413 field
size error before the field name is examined; `operations` is parsed and
must be an object or array; `map` must follow `operations`, parse to a
plain object, respect `maxFiles`, and bind every entry, after which the
outer promise is resolved with the operations tree; any other field name is
ignored.  `value` is the `JSON.parse` result of the field value, `none`
standing for a parse exception. -/
def onField (o : ProcessRequestOptions) (s : St) (fieldName : String)
    (value : Option JVal) (valueTruncated : Bool) : St :=
  if valueTruncated = true then exit s (errFieldTruncated o fieldName) false
  else if fieldName = "operations" then
    match value with
    | none => exit s errOpsJson false
    | some v =>
      if isObjOrArr v = true then { s with operations := some v }
      else exit s errOpsType false
  else if fieldName = "map" then
    match s.operations with
    | none => exit s errMapBeforeOps false
    | some t0 =>
      match value with
      | none => exit s errMapJson false
      | some pm =>
        match pm with
        | .obj entries =>
          if exceeds entries.length o.maxFiles = true then
            exit s (errTooManyFiles o) false
          else
            let r := bindEntries t0 [] s.nextId entries
            let s2 := { s with operations := some r.1, map := some r.2.1,
                               nextId := r.2.2.1 }
            (match r.2.2.2 with
             | some e => exit s2 e false
             | none => { s2 with result := s2.result.resolveP r.1 })
        | _ => exit s errMapType false
  else s

/-- The metadata of a file part event. -/
structure FileMeta where
  filename : String
  encoding : String
  mimetype : String
deriving DecidableEq, Repr

/-- How a file part stream turns out: completes within the size limit, hits
the busboy `fileSize` limit (the stream `limit` callback fires), or errors
(the stream `error` callback fires).  This is the eventual value of the
per-file error slot the callbacks write. -/
inductive FileOutcome where
  | ok
  | limit
  | err (e : Err)
deriving DecidableEq, Repr

/-- The eventual content of the per-file error slot for an outcome. -/
def fileErrorOf (o : ProcessRequestOptions) : FileOutcome → Option Err
  | .ok => none
  | .limit => some (errFileTooLarge o)
  | .err e => some e

/-- The `FileUpload` value the file handler builds for a mapped file. -/
def mkFile (o : ProcessRequestOptions) (meta : FileMeta) (outcome : FileOutcome) :
    FileUpload :=
  { filename := meta.filename, mimetype := meta.mimetype,
    encoding := meta.encoding, fileError := fileErrorOf o outcome }

/-- The `file` event handler.  Before `map` was classified the stream is
drained and processing exits with the misordered-fields error; a field name
absent from the table is an extraneous file, drained and ignored; otherwise
the matching placeholder is resolved with the `FileUpload` as streaming
begins, and the stream callbacks only ever write the per-file error slot
recorded in that `FileUpload`. -/
def onFile (o : ProcessRequestOptions) (s : St) (fieldName : String)
    (meta : FileMeta) (outcome : FileOutcome) : St :=
  match s.map with
  | none => exit s errFilesBeforeMap false
  | some tbl =>
    match lookupU tbl fieldName with
    | none => s
    | some u =>
      { s with map := some (tblSet tbl fieldName (u.resolveWith (mkFile o meta outcome))) }

/-- The `finish` handler: missing `operations`, then missing `map`, exit;
otherwise every placeholder whose file never arrived is rejected with the
400 file-missing error. -/
def onFinish (s : St) : St :=
  let s2 := { s with finished := true }
  match s2.operations with
  | none => exit s2 errMissingOps false
  | some _ =>
    match s2.map with
    | none => exit s2 errMissingMap false
    | some tbl => { s2 with map := some (sweep tbl errFileMissing) }

/-- One event pushed at the processor: a non-file field (with the
`JSON.parse` result of its value and the busboy truncation flag), a file
part (with its metadata and the eventual outcome of its stream), the busboy
`filesLimit` and `finish` events, a parser `error` event, the request
`close` event (with `request.readableEnded`), and the response `close`
event. -/
inductive Event where
  | field (name : String) (value : Option JVal) (valueTruncated : Bool)
  | file (fieldName : String) (meta : FileMeta) (outcome : FileOutcome)
  | filesLimit
  | finish
  | parserError (e : Err)
  | requestClose (readableEnded : Bool)
  | responseClose

/-- One step of the processor.  A destroyed parser delivers no further
parser events; busboy delivers at most two field events (`fields: 2`);
`finish` and `filesLimit` are once-handlers, as are the two close
handlers.  Subject to that delivery discipline, each event runs its source
handler. -/
def step (o : ProcessRequestOptions) (s : St) : Event → St
  | .field name value tr =>
    if s.parserDestroyed = true ∨ s.finished = true ∨ 2 ≤ s.fieldCount then s
    else onField o { s with fieldCount := s.fieldCount + 1 } name value tr
  | .file fieldName meta outcome =>
    if s.parserDestroyed = true then s else onFile o s fieldName meta outcome
  | .filesLimit =>
    if s.parserDestroyed = true ∨ s.filesLimitFired = true then s
    else exit { s with filesLimitFired := true } (errTooManyFiles o) false
  | .finish =>
    if s.parserDestroyed = true ∨ s.finished = true then s else onFinish s
  | .parserError e => exit s e true
  | .requestClose readableEnded =>
    if s.requestClosed = true then s
    else
      let s2 := { s with requestClosed := true }
      if readableEnded = true then s2 else exit s2 errDisconnected false
  | .responseClose =>
    if s.responseClosed = true then s
    else { s with responseClosed := true, released := true }

/-- A whole `processRequest` call, as a function of its options and of the
event trace the collaborators deliver: the final closure state. -/
def processRequest (o : ProcessRequestOptions) (events : List Event) : St :=
  events.foldl (step o) initSt

/-- The placeholder promise registered under a field name, if any. -/
def lookupProm (s : St) (name : String) : Option (Promise FileUpload) :=
  match s.map with
  | some tbl => (lookupU tbl name).map (fun u => u.promise)
  | none => none

/-- Every placeholder in the table has settled. -/
def allSettled (tbl : List (String × Upload)) : Bool :=
  tbl.all (fun nu => settledB nu.2.promise)

/-- Read a path inside the value the outer promise resolved with; `none`
when the outer promise has not resolved or the path is absent. -/
def resultPathVal (s : St) (p : String) : Option JVal :=
  match s.result with
  | .resolved t => getPath t (parsePath p)
  | _ => none

/-- One parsed path is an initial segment of another. -/
def isPref : List Seg → List Seg → Bool
  | [], _ => true
  | _ :: _, [] => false
  | a :: as, b :: bs => if a = b then isPref as bs else false

/-- Two parsed paths address overlapping locations: one is an initial
segment of the other. -/
def conflictB (p q : List Seg) : Bool := isPref p q || isPref q p

/-- No two paths in the list (counting positions separately) address
overlapping locations. -/
def noConflicts : List (List Seg) → Bool
  | [] => true
  | p :: rest => rest.all (fun q => !conflictB p q) && noConflicts rest

/-- Perform a sequence of path writes, failing on the first failing one. -/
def setAll : JVal → List (List Seg × JVal) → Option JVal
  | t, [] => some t
  | t, (p, v) :: rest =>
    match setPath t p v with
    | some t2 => setAll t2 rest
    | none => none

/-- The parsed paths a map entry value lists (only its string elements;
under a successful binding every element is a string). -/
def pathsOfEntry : JVal → List (List Seg)
  | .arr ps => ps.filterMap (fun p => match p with | .str s => some (parsePath s) | _ => none)
  | _ => []

/-- The path writes the map binder performs, in order: each path of entry
number `i` receives a reference to the placeholder with id `nid + i`. -/
def entryPairs (nid : Nat) : List (String × JVal) → List (List Seg × JVal)
  | [] => []
  | (_, pv) :: rest =>
    (pathsOfEntry pv).map (fun sp => (sp, JVal.upload nid)) ++ entryPairs (nid + 1) rest

/-- All parsed paths a map object lists, across all entries and positions. -/
def allSegPaths (entries : List (String × JVal)) : List (List Seg) :=
  (entryPairs 0 entries).map Prod.fst

/-- The reachability invariant of the processor state: field counting ties
`operations` and `map` to the busboy `fields: 2` limit, a placeholder with
a file has a settled promise, after an exit or after `finish` every
placeholder has settled, `finish` without a table implies the parser was
destroyed, and an exit implies the parser was destroyed. -/
def Inv (s : St) : Prop :=
  (s.operations.isSome = true → 1 ≤ s.fieldCount) ∧
  (s.map.isSome = true → 2 ≤ s.fieldCount ∧ s.operations.isSome = true) ∧
  (∀ tbl, s.map = some tbl → ∀ nu ∈ tbl, nu.2.file.isSome = true →
    settledB nu.2.promise = true) ∧
  (∀ tbl, s.map = some tbl → (s.exitError.isSome = true ∨ s.finished = true) →
    allSettled tbl = true) ∧
  (s.finished = true → s.parserDestroyed = true ∨ s.map.isSome = true) ∧
  (s.exitError.isSome = true → s.parserDestroyed = true)

/-! ### Concrete example data used by the witnesses and counterexamples -/

/-- An operations document `\x7b"x": null\x7d`. -/
def exOpsX : JVal := .obj [("x", JVal.null)]

/-- An operations document `\x7b"y": null\x7d`. -/
def exOpsY : JVal := .obj [("y", JVal.null)]

/-- An operations document `\x7b"x": null, "y": null\x7d`. -/
def exOpsXY : JVal := .obj [("x", JVal.null), ("y", JVal.null)]

/-- A map in which two entries list the same path `x`. -/
def exMapDup : JVal := .obj [("a", .arr [.str "x"]), ("b", .arr [.str "x"])]

/-- The map `\x7b"a": ["x"]\x7d`. -/
def exMapA : JVal := .obj [("a", .arr [.str "x"])]

/-- The map `\x7b"b": ["y"]\x7d`. -/
def exMapB : JVal := .obj [("b", .arr [.str "y"])]

/-- Metadata of an example file part. -/
def exMeta : FileMeta := { filename := "f.txt", encoding := "7bit", mimetype := "text/plain" }

/-- Options with `maxFiles` set to 1. -/
def exO1 : ProcessRequestOptions :=
  { maxFieldSize := 1000000, maxFileSize := none, maxFiles := some 1 }

/-- Trace: operations, then a map whose two entries share the path `x`. -/
def trC1 : List Event :=
  [.field "operations" (some exOpsX) false, .field "map" (some exMapDup) false]

/-- Trace: operations, then the map `\x7b"a": ["x"]\x7d`. -/
def trOpsMapA : List Event :=
  [.field "operations" (some exOpsX) false, .field "map" (some exMapA) false]

/-- Trace: operations and map bound, then the form finishes with no file. -/
def trFinishA : List Event := trOpsMapA ++ [.finish]

/-- Trace: operations and map bound, then the request closes before its body
was fully read. -/
def trC9 : List Event :=
  [.field "operations" (some exOpsY) false, .field "map" (some exMapB) false,
   .requestClose false]

/-- Trace: operations and map bound, then busboy reports the file count
limit. -/
def trC8 : List Event := trOpsMapA ++ [.filesLimit]

/-- Trace: a single truncated `map` field arriving before `operations`. -/
def trC3 : List Event := [.field "map" (some (.obj [])) true]

/-- The acceptance rule for the ‘operations’ field value, written from the
spec (§4.1 and the design note): accepted exactly when the parsed JSON is a
plain object or an array; a parse failure yields the 400 invalid-JSON
error; JSON null and every scalar yield the 400 invalid-type error. -/
def operationsErrSpec : Option JVal → Option Err
  | none => some errOpsJson
  | some (.obj _) => none
  | some (.arr _) => none
  | some _ => some errOpsType

/-! ### Basic lemmas about promises, association lists and the table -/

theorem resolveP_settled {α : Type} (p : Promise α) (a : α) (h : settledB p = true) :
    p.resolveP a = p := by
  cases p with
  | pending => simp [settledB] at h
  | resolved b => rfl
  | rejected e => rfl

theorem rejectP_settled {α : Type} (p : Promise α) (e : Err) (h : settledB p = true) :
    p.rejectP e = p := by
  cases p with
  | pending => simp [settledB] at h
  | resolved b => rfl
  | rejected e2 => rfl

theorem settledB_resolveP {α : Type} (p : Promise α) (a : α) :
    settledB (p.resolveP a) = true := by
  cases p <;> rfl

theorem settledB_rejectP {α : Type} (p : Promise α) (e : Err) :
    settledB (p.rejectP e) = true := by
  cases p <;> rfl

theorem assocGet_assocSet_self (kvs : List (String × JVal)) (k : String) (v : JVal) :
    assocGet (assocSet kvs k v) k = some v := by
  induction kvs with
  | nil => simp [assocSet, assocGet]
  | cons kv rest ih =>
    obtain ⟨k1, v1⟩ := kv
    by_cases h : k1 = k
    · simp [assocSet, h, assocGet]
    · simp [assocSet, h, assocGet, ih]

theorem assocGet_assocSet_ne (kvs : List (String × JVal)) (k k2 : String) (v : JVal)
    (h : k ≠ k2) : assocGet (assocSet kvs k v) k2 = assocGet kvs k2 := by
  induction kvs with
  | nil => simp [assocSet, assocGet, h]
  | cons kv rest ih =>
    obtain ⟨k1, v1⟩ := kv
    by_cases h1 : k1 = k
    · subst h1
      simp [assocSet, assocGet, h]
    · simp [assocSet, h1, assocGet, ih]

theorem set_getElem?_self {α : Type} (l : List α) (n : Nat) (a : α) (h : n < l.length) :
    (l.set n a)[n]? = some a := by
  induction l generalizing n with
  | nil => simp at h
  | cons x xs ih =>
    cases n with
    | zero => simp
    | succ m => simpa using ih m (by simpa using h)

theorem set_getElem?_ne {α : Type} (l : List α) (n m : Nat) (a : α) (h : m ≠ n) :
    (l.set n a)[m]? = l[m]? := by
  induction l generalizing n m with
  | nil => rfl
  | cons x xs ih =>
    cases n with
    | zero =>
      cases m with
      | zero => exact absurd rfl h
      | succ j => simp
    | succ i =>
      cases m with
      | zero => simp
      | succ j => simpa using ih i j (fun hh => h (by rw [hh]))

theorem getElem?_some_lt {α : Type} (l : List α) (n : Nat) (a : α)
    (h : l[n]? = some a) : n < l.length := by
  induction l generalizing n with
  | nil => simp at h
  | cons x xs ih =>
    cases n with
    | zero => simp
    | succ m => simpa using ih m (by simpa using h)

theorem lookupU_tblSet_self (tbl : List (String × Upload)) (k : String) (u : Upload) :
    lookupU (tblSet tbl k u) k = some u := by
  induction tbl with
  | nil => simp [tblSet, lookupU]
  | cons nu rest ih =>
    obtain ⟨k1, u1⟩ := nu
    by_cases h : k1 = k
    · simp [tblSet, h, lookupU]
    · simp [tblSet, h, lookupU, ih]

theorem lookupU_tblSet_ne (tbl : List (String × Upload)) (k k2 : String) (u : Upload)
    (h : k ≠ k2) : lookupU (tblSet tbl k u) k2 = lookupU tbl k2 := by
  induction tbl with
  | nil => simp [tblSet, lookupU, h]
  | cons nu rest ih =>
    obtain ⟨k1, u1⟩ := nu
    by_cases h1 : k1 = k
    · subst h1
      simp [tblSet, lookupU, h]
    · simp [tblSet, h1, lookupU, ih]

theorem mem_tblSet (tbl : List (String × Upload)) (k : String) (u : Upload)
    (nu : String × Upload) (h : nu ∈ tblSet tbl k u) : nu = (k, u) ∨ nu ∈ tbl := by
  induction tbl with
  | nil => simpa [tblSet] using h
  | cons nu1 rest ih =>
    obtain ⟨k1, u1⟩ := nu1
    by_cases h1 : k1 = k
    · simp [tblSet, h1] at h
      rcases h with h | h
      · exact Or.inl h
      · exact Or.inr (List.mem_cons_of_mem _ h)
    · simp [tblSet, h1] at h
      rcases h with h | h
      · exact Or.inr (by simp [h])
      · rcases ih h with h2 | h2
        · exact Or.inl h2
        · exact Or.inr (List.mem_cons_of_mem _ h2)

theorem lookupU_sweep (tbl : List (String × Upload)) (e : Err) (name : String) :
    lookupU (sweep tbl e) name = (lookupU tbl name).map (fun u => rejectPending u e) := by
  induction tbl with
  | nil => rfl
  | cons nu rest ih =>
    obtain ⟨k1, u1⟩ := nu
    by_cases h : k1 = name
    · simp [sweep, lookupU, h]
    · simpa [sweep, lookupU, h] using ih

theorem rejectPending_file (u : Upload) (e : Err) : (rejectPending u e).file = u.file := by
  by_cases h : u.file.isSome <;> simp [rejectPending, h]

theorem rejectPending_settled (u : Upload) (e : Err) (h : settledB u.promise = true) :
    rejectPending u e = u := by
  by_cases hf : u.file.isSome
  · simp [rejectPending, hf]
  · simp [rejectPending, hf, rejectP_settled u.promise e h]

theorem settledB_rejectPending_of_file_none (u : Upload) (e : Err) (h : u.file = none) :
    settledB (rejectPending u e).promise = true := by
  simp [rejectPending, h, settledB_rejectP]

theorem allSettled_cons (nu : String × Upload) (rest : List (String × Upload)) :
    allSettled (nu :: rest) = (settledB nu.2.promise && allSettled rest) := rfl

theorem allSettled_mem (tbl : List (String × Upload)) (h : allSettled tbl = true)
    (nu : String × Upload) (hm : nu ∈ tbl) : settledB nu.2.promise = true := by
  induction tbl with
  | nil => simp at hm
  | cons nu1 rest ih =>
    rw [allSettled_cons, Bool.and_eq_true] at h
    rcases List.mem_cons.mp hm with h2 | h2
    · rw [h2]
      exact h.1
    · exact ih h.2 h2

theorem allSettled_of_mem (tbl : List (String × Upload))
    (h : ∀ nu ∈ tbl, settledB nu.2.promise = true) : allSettled tbl = true := by
  induction tbl with
  | nil => rfl
  | cons nu1 rest ih =>
    rw [allSettled_cons, Bool.and_eq_true]
    constructor
    · exact h nu1 (List.mem_cons_self nu1 rest)
    · exact ih (fun nu hm => h nu (List.mem_cons_of_mem nu1 hm))

theorem settledB_rejectPending (u : Upload) (e : Err)
    (h : u.file.isSome = true → settledB u.promise = true) :
    settledB (rejectPending u e).promise = true := by
  by_cases hf : u.file.isSome
  · simpa [rejectPending, hf] using h hf
  · cases hx : u.file with
    | some f => simp [hx] at hf
    | none => exact settledB_rejectPending_of_file_none u e hx

theorem allSettled_sweep (tbl : List (String × Upload)) (e : Err)
    (h : ∀ nu ∈ tbl, nu.2.file.isSome = true → settledB nu.2.promise = true) :
    allSettled (sweep tbl e) = true := by
  apply allSettled_of_mem
  intro nu hm
  simp [sweep] at hm
  obtain ⟨a, b, hm0, heq⟩ := hm
  have h2 := settledB_rejectPending b e (h (a, b) hm0)
  rw [← heq]
  exact h2

theorem allSettled_tblSet (tbl : List (String × Upload)) (k : String) (u : Upload)
    (h : allSettled tbl = true) (hu : settledB u.promise = true) :
    allSettled (tblSet tbl k u) = true := by
  apply allSettled_of_mem
  intro nu hm
  rcases mem_tblSet tbl k u nu hm with h2 | h2
  · rw [h2]
    exact hu
  · exact allSettled_mem tbl h nu h2

/-! ### Lemmas about the exit path -/

theorem exit_of_some (s : St) (e e0 : Err) (b : Bool) (h : s.exitError = some e0) :
    exit s e b = s := by
  simp [exit, h]

theorem exit_of_none (s : St) (e : Err) (b : Bool) (h : s.exitError = none) :
    exit s e b =
      { s with exitError := some e,
               map := s.map.map (fun tbl => sweep tbl e),
               parserDestroyed := true,
               result := s.result.rejectP e } := by
  simp [exit, h]

theorem exit_exitError_isSome (s : St) (e : Err) (b : Bool) :
    (exit s e b).exitError.isSome = true := by
  cases h : s.exitError with
  | some e0 => simp [exit_of_some s e e0 b h, h]
  | none => simp [exit_of_none s e b h]

/-! ### Lemmas about path reads and writes -/

theorem getPath_obj_nil (a : Seg) (l : List Seg) : getPath (.obj []) (a :: l) = none := by
  cases a <;> rfl

theorem getPath_arr_nil (a : Seg) (l : List Seg) : getPath (.arr []) (a :: l) = none := by
  cases a <;> rfl

theorem getPath_setPath : ∀ (p : List Seg) (t t2 v : JVal), p ≠ [] →
    setPath t p v = some t2 → getPath t2 p = some v := by
  intro p
  induction p with
  | nil =>
    intro t t2 v h
    exact absurd rfl h
  | cons sg rest ih =>
    intro t t2 v _ hset
    cases t with
    | obj kvs =>
      cases sg with
      | idx n =>
        simp [setPath] at hset
      | key k =>
        cases rest with
        | nil =>
          simp only [setPath, Option.some.injEq] at hset
          rw [← hset]
          simp [getPath, assocGet_assocSet_self]
        | cons next rest2 =>
          simp only [setPath] at hset
          cases hcf : setPath (childFor kvs k next) (next :: rest2) v with
          | none =>
            rw [hcf] at hset
            simp at hset
          | some c2 =>
            rw [hcf] at hset
            simp at hset
            rw [← hset]
            simp [getPath, assocGet_assocSet_self]
            exact ih (childFor kvs k next) c2 v (by simp) hcf
    | arr xs =>
      cases sg with
      | key k =>
        simp [setPath] at hset
      | idx n =>
        cases rest with
        | nil =>
          simp only [setPath] at hset
          split at hset
          · simp only [Option.some.injEq] at hset
            rw [← hset]
            simp [getPath, set_getElem?_self xs n v (by assumption)]
          · simp at hset
        | cons next rest2 =>
          simp only [setPath] at hset
          cases hg : xs[n]? with
          | none =>
            rw [hg] at hset
            simp at hset
          | some c0 =>
            rw [hg] at hset
            simp at hset
            cases hcf : setPath c0 (next :: rest2) v with
            | none =>
              rw [hcf] at hset
              simp at hset
            | some c2 =>
              rw [hcf] at hset
              simp at hset
              rw [← hset]
              simp [getPath, set_getElem?_self xs n c2 (getElem?_some_lt xs n c0 hg)]
              exact ih c0 c2 v (by simp) hcf
    | null => simp [setPath] at hset
    | bool b => simp [setPath] at hset
    | num n => simp [setPath] at hset
    | str s => simp [setPath] at hset
    | upload i => simp [setPath] at hset

theorem getPath_setPath_ne : ∀ (q p : List Seg) (t t2 v : JVal),
    conflictB p q = false → setPath t q v = some t2 →
    getPath t2 p = getPath t p := by
  intro q
  induction q with
  | nil =>
    intro p t t2 v hc _
    simp [conflictB, isPref] at hc
  | cons sg qrest ih =>
    intro p t t2 v hc hs
    cases t with
    | obj kvs =>
      cases sg with
      | idx n =>
        simp [setPath] at hs
      | key k =>
        cases p with
        | nil =>
          simp [conflictB, isPref] at hc
        | cons psg prest =>
          cases qrest with
          | nil =>
            simp only [setPath, Option.some.injEq] at hs
            rw [← hs]
            cases psg with
            | idx m => simp [getPath]
            | key k2 =>
              by_cases hk : k2 = k
              · rw [hk] at hc
                simp [conflictB, isPref] at hc
              · simp [getPath, assocGet_assocSet_ne kvs k k2 v (fun hh => hk hh.symm)]
          | cons nxt qr2 =>
            simp only [setPath] at hs
            cases hcf : setPath (childFor kvs k nxt) (nxt :: qr2) v with
            | none =>
              rw [hcf] at hs
              simp at hs
            | some c2 =>
              rw [hcf] at hs
              simp at hs
              rw [← hs]
              cases psg with
              | idx m => simp [getPath]
              | key k2 =>
                by_cases hk : k2 = k
                · rw [hk] at hc ⊢
                  cases prest with
                  | nil => simp [conflictB, isPref] at hc
                  | cons pn pr2 =>
                    have hc2 : conflictB (pn :: pr2) (nxt :: qr2) = false := by
                      simpa [conflictB, isPref] using hc
                    have hrec := ih (pn :: pr2) (childFor kvs k nxt) c2 v hc2 hcf
                    cases hg : assocGet kvs k with
                    | some c0 =>
                      simp only [childFor, hg] at hrec
                      simp [getPath, assocGet_assocSet_self, hg, hrec]
                    | none =>
                      simp only [childFor, hg] at hrec
                      simp [getPath, assocGet_assocSet_self, hg]
                      rw [hrec]
                      cases nxt with
                      | idx j => exact getPath_arr_nil pn pr2
                      | key k3 => exact getPath_obj_nil pn pr2
                · simp [getPath, assocGet_assocSet_ne kvs k k2 c2 (fun hh => hk hh.symm)]
    | arr xs =>
      cases sg with
      | key k =>
        simp [setPath] at hs
      | idx n =>
        cases p with
        | nil =>
          simp [conflictB, isPref] at hc
        | cons psg prest =>
          cases qrest with
          | nil =>
            simp only [setPath] at hs
            split at hs
            case isFalse => simp at hs
            case isTrue hlt =>
              simp only [Option.some.injEq] at hs
              rw [← hs]
              cases psg with
              | key k2 => simp [getPath]
              | idx m =>
                by_cases hm : m = n
                · rw [hm] at hc
                  simp [conflictB, isPref] at hc
                · simp [getPath, set_getElem?_ne xs n m v hm]
          | cons nxt qr2 =>
            simp only [setPath] at hs
            cases hg : xs[n]? with
            | none =>
              rw [hg] at hs
              simp at hs
            | some c0 =>
              rw [hg] at hs
              simp at hs
              cases hcf : setPath c0 (nxt :: qr2) v with
              | none =>
                rw [hcf] at hs
                simp at hs
              | some c2 =>
                rw [hcf] at hs
                simp at hs
                rw [← hs]
                cases psg with
                | key k2 => simp [getPath]
                | idx m =>
                  by_cases hm : m = n
                  · rw [hm] at hc ⊢
                    cases prest with
                    | nil => simp [conflictB, isPref] at hc
                    | cons pn pr2 =>
                      have hc2 : conflictB (pn :: pr2) (nxt :: qr2) = false := by
                        simpa [conflictB, isPref] using hc
                      have hrec := ih (pn :: pr2) c0 c2 v hc2 hcf
                      simp [getPath, set_getElem?_self xs n c2 (getElem?_some_lt xs n c0 hg), hg, hrec]
                  · simp [getPath, set_getElem?_ne xs n m c2 hm]
    | null => simp [setPath] at hs
    | bool b => simp [setPath] at hs
    | num n => simp [setPath] at hs
    | str s => simp [setPath] at hs
    | upload i => simp [setPath] at hs

/-! ### The map binder as a sequence of path writes -/

theorem splitSegs_ne_nil (cs : List Char) : splitSegs cs ≠ [] := by
  cases cs with
  | nil => simp [splitSegs]
  | cons c cs2 =>
    simp only [splitSegs]
    split <;> simp

theorem parsePath_ne_nil (s : String) : parsePath s ≠ [] := by
  simp only [parsePath, ne_eq, List.map_eq_nil_iff]
  exact splitSegs_ne_nil s.data

theorem setAll_append : ∀ (l1 l2 : List (List Seg × JVal)) (t : JVal),
    setAll t (l1 ++ l2) = (setAll t l1).bind (fun t1 => setAll t1 l2) := by
  intro l1
  induction l1 with
  | nil =>
    intro l2 t
    rfl
  | cons pv rest ih =>
    intro l2 t
    obtain ⟨p, v⟩ := pv
    simp only [List.cons_append, setAll]
    cases hsp : setPath t p v with
    | none => simp
    | some t2 => simp [ih l2 t2]

theorem setAll_pres : ∀ (l : List (List Seg × JVal)) (t T : JVal) (p : List Seg),
    setAll t l = some T → (∀ pv ∈ l, conflictB p pv.1 = false) →
    getPath T p = getPath t p := by
  intro l
  induction l with
  | nil =>
    intro t T p h _
    simp [setAll] at h
    rw [h]
  | cons qv rest ih =>
    intro t T p h hc
    obtain ⟨q, v⟩ := qv
    simp only [setAll] at h
    cases hsp : setPath t q v with
    | none =>
      rw [hsp] at h
      simp at h
    | some t1 =>
      rw [hsp] at h
      simp at h
      have h1 := getPath_setPath_ne q p t t1 v (hc (q, v) (List.mem_cons_self _ _)) hsp
      have h2 := ih t1 T p h (fun pv hm => hc pv (List.mem_cons_of_mem _ hm))
      rw [h2, h1]

theorem setAll_get : ∀ (l : List (List Seg × JVal)) (t T : JVal),
    setAll t l = some T → noConflicts (l.map Prod.fst) = true →
    (∀ pv ∈ l, pv.1 ≠ []) →
    ∀ pv ∈ l, getPath T pv.1 = some pv.2 := by
  intro l
  induction l with
  | nil =>
    intro t T _ _ _ pv hm
    simp at hm
  | cons qv rest ih =>
    intro t T h hnc hne pv hm
    obtain ⟨q, v⟩ := qv
    simp only [setAll] at h
    cases hsp : setPath t q v with
    | none =>
      rw [hsp] at h
      simp at h
    | some t1 =>
      rw [hsp] at h
      simp at h
      simp only [List.map_cons, noConflicts, Bool.and_eq_true, List.all_eq_true] at hnc
      rcases List.mem_cons.mp hm with h2 | h2
      · have hq := getPath_setPath q t t1 v (hne (q, v) (List.mem_cons_self _ _)) hsp
        have hcf : ∀ pv2 ∈ rest, conflictB q pv2.1 = false := by
          intro pv2 hm2
          have hx := hnc.1 pv2.1 (List.mem_map_of_mem Prod.fst hm2)
          simpa using hx
        have hpres := setAll_pres rest t1 T q h hcf
        rw [h2]
        show getPath T q = some v
        rw [hpres, hq]
      · exact ih t1 T h hnc.2 (fun pv2 hm2 => hne pv2 (List.mem_cons_of_mem _ hm2)) pv h2

theorem pathsOfEntry_ne_nil (v : JVal) : ∀ sp ∈ pathsOfEntry v, sp ≠ [] := by
  intro sp hm
  cases v with
  | arr ps =>
    simp only [pathsOfEntry, List.mem_filterMap] at hm
    obtain ⟨p, hp, heq⟩ := hm
    cases p <;> simp at heq
    case str s =>
      rw [← heq]
      exact parsePath_ne_nil s
  | null => simp [pathsOfEntry] at hm
  | bool b => simp [pathsOfEntry] at hm
  | num n => simp [pathsOfEntry] at hm
  | str s => simp [pathsOfEntry] at hm
  | obj kvs => simp [pathsOfEntry] at hm
  | upload i => simp [pathsOfEntry] at hm

theorem entryPairs_ne_nil (entries : List (String × JVal)) :
    ∀ nid pv, pv ∈ entryPairs nid entries → pv.1 ≠ [] := by
  induction entries with
  | nil =>
    intro nid pv hm
    simp [entryPairs] at hm
  | cons e rest ih =>
    intro nid pv hm
    obtain ⟨nm, v⟩ := e
    simp only [entryPairs] at hm
    rcases List.mem_append.mp hm with h | h
    · simp only [List.mem_map] at h
      obtain ⟨sp, hsp, heq⟩ := h
      rw [← heq]
      exact pathsOfEntry_ne_nil v sp hsp
    · exact ih (nid + 1) pv h

theorem entryPairs_fst (entries : List (String × JVal)) :
    ∀ nid nid2,
      (entryPairs nid entries).map Prod.fst = (entryPairs nid2 entries).map Prod.fst := by
  induction entries with
  | nil =>
    intro nid nid2
    rfl
  | cons e rest ih =>
    intro nid nid2
    obtain ⟨nm, v⟩ := e
    simp only [entryPairs, List.map_append, List.map_map]
    rw [ih (nid + 1) (nid2 + 1)]
    simp [Function.comp]

theorem entryPairs_mem (entries : List (String × JVal)) :
    ∀ nid i nm ps s, entries[i]? = some (nm, JVal.arr ps) → JVal.str s ∈ ps →
    (parsePath s, JVal.upload (nid + i)) ∈ entryPairs nid entries := by
  induction entries with
  | nil =>
    intro nid i nm ps s h _
    simp at h
  | cons e rest ih =>
    intro nid i nm ps s h hs
    cases i with
    | zero =>
      simp at h
      subst h
      simp only [entryPairs]
      apply List.mem_append_left
      have hmem : parsePath s ∈ pathsOfEntry (JVal.arr ps) := by
        simp only [pathsOfEntry, List.mem_filterMap]
        exact ⟨.str s, hs, rfl⟩
      simpa using List.mem_map_of_mem (fun sp => (sp, JVal.upload nid)) hmem
    | succ j =>
      simp at h
      simp only [entryPairs]
      apply List.mem_append_right
      have hrec := ih (nid + 1) j nm ps s h hs
      have harith : nid + 1 + j = nid + (j + 1) := by omega
      rw [harith] at hrec
      exact hrec

theorem bindPaths_setAll (fn : String) (uid : Nat) :
    ∀ (ps : List JVal) (ops : JVal) (i : Nat),
    (bindPaths ops fn uid ps i).2 = none →
    setAll ops ((pathsOfEntry (JVal.arr ps)).map (fun sp => (sp, JVal.upload uid)))
      = some (bindPaths ops fn uid ps i).1 := by
  intro ps
  induction ps with
  | nil =>
    intro ops i _
    rfl
  | cons p rest ih =>
    intro ops i h
    cases p with
    | str s =>
      simp only [bindPaths] at h ⊢
      cases hsp : setPath ops (parsePath s) (.upload uid) with
      | none =>
        rw [hsp] at h
        simp at h
      | some ops2 =>
        rw [hsp] at h
        simp at h
        simp only [pathsOfEntry, List.filterMap_cons] at ih ⊢
        simp only [List.map_cons, setAll, hsp]
        exact ih ops2 (i + 1) h
    | null => simp [bindPaths] at h
    | bool b => simp [bindPaths] at h
    | num n => simp [bindPaths] at h
    | arr xs => simp [bindPaths] at h
    | obj kvs => simp [bindPaths] at h
    | upload j => simp [bindPaths] at h

theorem bindEntries_ops (entries : List (String × JVal)) :
    ∀ (ops : JVal) (tbl : List (String × Upload)) (nid : Nat),
    (bindEntries ops tbl nid entries).2.2.2 = none →
    setAll ops (entryPairs nid entries) = some (bindEntries ops tbl nid entries).1 := by
  induction entries with
  | nil =>
    intro ops tbl nid _
    rfl
  | cons e rest ih =>
    intro ops tbl nid h
    obtain ⟨fn, paths⟩ := e
    cases paths with
    | arr ps =>
      simp only [bindEntries] at h ⊢
      cases hbp : bindPaths ops fn nid ps 0 with
      | mk ops2 oerr =>
        cases oerr with
        | some e2 => simp [hbp] at h
        | none =>
          simp [hbp] at h ⊢
          have h1 := bindPaths_setAll fn nid ps ops 0 (by rw [hbp])
          rw [hbp] at h1
          simp at h1
          simp only [entryPairs]
          rw [setAll_append, h1]
          simpa using ih ops2 (tblSet tbl fn (newUpload nid)) (nid + 1) h
    | null => simp [bindEntries] at h
    | bool b => simp [bindEntries] at h
    | num n => simp [bindEntries] at h
    | str s => simp [bindEntries] at h
    | obj kvs => simp [bindEntries] at h
    | upload j => simp [bindEntries] at h

/-! ### Case equations for the step function and the handlers -/

theorem step_field (o : ProcessRequestOptions) (s : St) (name : String)
    (value : Option JVal) (tr : Bool)
    (hd : s.parserDestroyed = false) (hf : s.finished = false)
    (hcnt : s.fieldCount < 2) :
    step o s (.field name value tr)
      = onField o { s with fieldCount := s.fieldCount + 1 } name value tr := by
  simp only [step]
  rw [if_neg]
  simp [hd, hf]
  omega

theorem step_file (o : ProcessRequestOptions) (s : St) (fn : String) (meta : FileMeta)
    (outc : FileOutcome) (hd : s.parserDestroyed = false) :
    step o s (.file fn meta outc) = onFile o s fn meta outc := by
  simp only [step]
  rw [if_neg]
  simp [hd]

theorem step_filesLimit (o : ProcessRequestOptions) (s : St)
    (hd : s.parserDestroyed = false) (hff : s.filesLimitFired = false) :
    step o s .filesLimit
      = exit { s with filesLimitFired := true } (errTooManyFiles o) false := by
  simp only [step]
  rw [if_neg]
  simp [hd, hff]

theorem step_finish (o : ProcessRequestOptions) (s : St)
    (hd : s.parserDestroyed = false) (hf : s.finished = false) :
    step o s .finish = onFinish s := by
  simp only [step]
  rw [if_neg]
  simp [hd, hf]

theorem step_requestClose_notEnded (o : ProcessRequestOptions) (s : St)
    (hrc : s.requestClosed = false) :
    step o s (.requestClose false)
      = exit { s with requestClosed := true } errDisconnected false := by
  simp only [step]
  rw [if_neg (by simp [hrc])]
  rfl

theorem onField_truncated (o : ProcessRequestOptions) (s : St) (name : String)
    (value : Option JVal) :
    onField o s name value true = exit s (errFieldTruncated o name) false := by
  unfold onField
  rfl

theorem onField_ops_json (o : ProcessRequestOptions) (s : St) :
    onField o s "operations" none false = exit s errOpsJson false := by
  unfold onField
  rfl

theorem onField_ops_val (o : ProcessRequestOptions) (s : St) (v : JVal) :
    onField o s "operations" (some v) false
      = (if isObjOrArr v = true then { s with operations := some v }
         else exit s errOpsType false) := by
  unfold onField
  rfl

theorem onField_other (o : ProcessRequestOptions) (s : St) (name : String)
    (value : Option JVal) (h1 : name ≠ "operations") (h2 : name ≠ "map") :
    onField o s name value false = s := by
  unfold onField
  rw [if_neg (by simp), if_neg h1, if_neg h2]

theorem onField_map_no_ops (o : ProcessRequestOptions) (s : St) (value : Option JVal)
    (hops : s.operations = none) :
    onField o s "map" value false = exit s errMapBeforeOps false := by
  unfold onField
  rw [hops]
  rfl

theorem onField_map_json (o : ProcessRequestOptions) (s : St) (t0 : JVal)
    (hops : s.operations = some t0) :
    onField o s "map" none false = exit s errMapJson false := by
  unfold onField
  rw [hops]
  rfl

theorem onField_map_not_obj (o : ProcessRequestOptions) (s : St) (t0 pm : JVal)
    (hops : s.operations = some t0) (hno : isPlainObj pm = false) :
    onField o s "map" (some pm) false = exit s errMapType false := by
  unfold onField
  rw [hops]
  cases pm with
  | obj kvs => simp [isPlainObj] at hno
  | null => rfl
  | bool b => rfl
  | num n => rfl
  | str st => rfl
  | arr xs => rfl
  | upload j => rfl

theorem onField_map_exceeds (o : ProcessRequestOptions) (s : St) (t0 : JVal)
    (entries : List (String × JVal)) (hops : s.operations = some t0)
    (hexc : exceeds entries.length o.maxFiles = true) :
    onField o s "map" (some (.obj entries)) false
      = exit s (errTooManyFiles o) false := by
  unfold onField
  simp only [hops]
  rw [hexc]
  rfl

theorem onField_map_bind (o : ProcessRequestOptions) (s : St) (t0 : JVal)
    (entries : List (String × JVal)) (hops : s.operations = some t0)
    (hexc : exceeds entries.length o.maxFiles = false) :
    onField o s "map" (some (.obj entries)) false
      = (let r := bindEntries t0 [] s.nextId entries
         let s2 : St := { s with operations := some r.1, map := some r.2.1,
                                 nextId := r.2.2.1 }
         match r.2.2.2 with
         | some e => exit s2 e false
         | none => { s2 with result := s2.result.resolveP r.1 }) := by
  unfold onField
  simp only [hops]
  rw [hexc]
  rfl

theorem onFile_no_map (o : ProcessRequestOptions) (s : St) (fn : String)
    (meta : FileMeta) (outc : FileOutcome) (hm : s.map = none) :
    onFile o s fn meta outc = exit s errFilesBeforeMap false := by
  unfold onFile
  rw [hm]

theorem onFile_extraneous (o : ProcessRequestOptions) (s : St) (fn : String)
    (meta : FileMeta) (outc : FileOutcome) (tbl : List (String × Upload))
    (hm : s.map = some tbl) (hlk : lookupU tbl fn = none) :
    onFile o s fn meta outc = s := by
  unfold onFile
  simp only [hm]
  rw [hlk]

theorem onFile_mapped (o : ProcessRequestOptions) (s : St) (fn : String)
    (meta : FileMeta) (outc : FileOutcome) (tbl : List (String × Upload)) (u : Upload)
    (hm : s.map = some tbl) (hlk : lookupU tbl fn = some u) :
    onFile o s fn meta outc
      = { s with map := some (tblSet tbl fn (u.resolveWith (mkFile o meta outc))) } := by
  unfold onFile
  simp only [hm]
  rw [hlk]

theorem onFinish_no_ops (s : St) (hops : s.operations = none) :
    onFinish s = exit { s with finished := true } errMissingOps false := by
  unfold onFinish
  simp only [hops]

theorem onFinish_no_map (s : St) (t0 : JVal) (hops : s.operations = some t0)
    (hm : s.map = none) :
    onFinish s = exit { s with finished := true } errMissingMap false := by
  unfold onFinish
  simp only [hops, hm]

theorem onFinish_sweep (s : St) (t0 : JVal) (tbl : List (String × Upload))
    (hops : s.operations = some t0) (hm : s.map = some tbl) :
    onFinish s = { s with finished := true, map := some (sweep tbl errFileMissing) } := by
  unfold onFinish
  simp only [hops, hm]

/-! ### The reachability invariant -/

theorem bindEntries_table (entries : List (String × JVal)) :
    ∀ ops tbl nid, (∀ nu ∈ tbl, nu.2.file = none) →
    ∀ nu ∈ (bindEntries ops tbl nid entries).2.1, nu.2.file = none := by
  induction entries with
  | nil =>
    intro ops tbl nid h nu hm
    exact h nu hm
  | cons e rest ih =>
    intro ops tbl nid h nu hm
    obtain ⟨fn, paths⟩ := e
    cases paths with
    | arr ps =>
      have htbl2 : ∀ nu2 ∈ tblSet tbl fn (newUpload nid), nu2.2.file = none := by
        intro nu2 hm2
        rcases mem_tblSet tbl fn (newUpload nid) nu2 hm2 with h2 | h2
        · rw [h2]
          rfl
        · exact h nu2 h2
      simp only [bindEntries] at hm
      cases hbp : bindPaths ops fn nid ps 0 with
      | mk ops2 oerr =>
        cases oerr with
        | none =>
          simp [hbp] at hm
          exact ih ops2 (tblSet tbl fn (newUpload nid)) (nid + 1) htbl2 nu hm
        | some e2 =>
          simp [hbp] at hm
          exact htbl2 nu hm
    | null =>
      simp [bindEntries] at hm
      exact h nu hm
    | bool b =>
      simp [bindEntries] at hm
      exact h nu hm
    | num n =>
      simp [bindEntries] at hm
      exact h nu hm
    | str st =>
      simp [bindEntries] at hm
      exact h nu hm
    | obj kvs =>
      simp [bindEntries] at hm
      exact h nu hm
    | upload j =>
      simp [bindEntries] at hm
      exact h nu hm

theorem inv_exit_none (s : St) (e : Err) (b : Bool) (hE : s.exitError = none)
    (h1 : s.operations.isSome = true → 1 ≤ s.fieldCount)
    (h2 : s.map.isSome = true → 2 ≤ s.fieldCount ∧ s.operations.isSome = true)
    (h3 : ∀ tbl, s.map = some tbl → ∀ nu ∈ tbl, nu.2.file.isSome = true →
      settledB nu.2.promise = true) :
    Inv (exit s e b) := by
  rw [exit_of_none s e b hE]
  refine ⟨?_, ?_, ?_, ?_, ?_, ?_⟩
  · intro hops
    exact h1 hops
  · intro hm
    have hm2 : s.map.isSome = true := by simpa using hm
    exact h2 hm2
  · intro tbl hmap nu hmem hfile
    cases hsm : s.map with
    | none =>
      rw [hsm] at hmap
      simp at hmap
    | some tbl0 =>
      rw [hsm] at hmap
      simp at hmap
      rw [← hmap] at hmem
      simp [sweep] at hmem
      obtain ⟨a, bu, hm0, heq⟩ := hmem
      rw [← heq] at hfile
      rw [← heq]
      show settledB (rejectPending bu e).promise = true
      refine settledB_rejectPending bu e (fun hf => h3 tbl0 hsm (a, bu) hm0 hf)
  · intro tbl hmap _
    cases hsm : s.map with
    | none =>
      rw [hsm] at hmap
      simp at hmap
    | some tbl0 =>
      rw [hsm] at hmap
      simp at hmap
      rw [← hmap]
      exact allSettled_sweep tbl0 e (h3 tbl0 hsm)
  · intro _
    exact Or.inl rfl
  · intro _
    rfl

theorem inv_init : Inv initSt := by
  refine ⟨?_, ?_, ?_, ?_, ?_, ?_⟩ <;> simp [initSt]

theorem inv_step (o : ProcessRequestOptions) (s : St) (ev : Event) (hI : Inv s) :
    Inv (step o s ev) := by
  obtain ⟨h1, h2, h3, h4, h5, h6⟩ := hI
  have hEof : s.parserDestroyed = false → s.exitError = none := by
    intro hd
    cases hx : s.exitError with
    | none => rfl
    | some e0 =>
      have hds := h6 (by rw [hx]; rfl)
      rw [hd] at hds
      exact absurd hds (by simp)
  cases ev with
  | field name value tr =>
    cases hd : s.parserDestroyed with
    | true =>
      simp only [step]
      rw [if_pos (Or.inl hd)]
      exact ⟨h1, h2, h3, h4, h5, h6⟩
    | false =>
      cases hf : s.finished with
      | true =>
        simp only [step]
        rw [if_pos (Or.inr (Or.inl hf))]
        exact ⟨h1, h2, h3, h4, h5, h6⟩
      | false =>
        by_cases hcnt : 2 ≤ s.fieldCount
        · simp only [step]
          rw [if_pos (Or.inr (Or.inr hcnt))]
          exact ⟨h1, h2, h3, h4, h5, h6⟩
        · have hcnt2 : s.fieldCount < 2 := Nat.not_le.mp hcnt
          rw [step_field o s name value tr hd hf hcnt2]
          have hE : s.exitError = none := hEof hd
          -- facts about the bumped state
          have h1b : 1 ≤ s.fieldCount + 1 := by omega
          have h2b : s.map.isSome = true → 2 ≤ s.fieldCount + 1 ∧ s.operations.isSome = true := by
            intro hm
            exact ⟨by have := (h2 hm).1; omega, (h2 hm).2⟩
          cases tr with
          | true =>
            rw [onField_truncated]
            exact inv_exit_none _ _ _ hE (fun _ => h1b) h2b h3
          | false =>
            by_cases hn1 : name = "operations"
            · subst hn1
              cases value with
              | none =>
                rw [onField_ops_json]
                exact inv_exit_none _ _ _ hE (fun _ => h1b) h2b h3
              | some v =>
                rw [onField_ops_val]
                by_cases hio : isObjOrArr v = true
                · rw [if_pos hio]
                  refine ⟨fun _ => h1b, ?_, h3, ?_, ?_, ?_⟩
                  · intro hm
                    exact ⟨(h2b hm).1, rfl⟩
                  · intro tbl hmap hcond
                    rcases hcond with hc1 | hc1
                    · rw [hE] at hc1
                      simp at hc1
                    · rw [hf] at hc1
                      exact absurd hc1 (by simp)
                  · intro hfin
                    rw [hf] at hfin
                    exact absurd hfin (by simp)
                  · intro hex
                    rw [hE] at hex
                    simp at hex
                · rw [if_neg hio]
                  exact inv_exit_none _ _ _ hE (fun _ => h1b) h2b h3
            · by_cases hn2 : name = "map"
              · subst hn2
                cases hops : s.operations with
                | none =>
                  rw [onField_map_no_ops o _ value rfl]
                  refine inv_exit_none _ _ _ hE (fun _ => h1b) ?_ h3
                  intro hm
                  have hcontra := (h2 hm).2
                  rw [hops] at hcontra
                  simp at hcontra
                | some t0 =>
                  have h2s : s.map.isSome = true →
                      2 ≤ s.fieldCount + 1 ∧ (some t0 : Option JVal).isSome = true :=
                    fun hm => ⟨by have := (h2 hm).1; omega, rfl⟩
                  cases value with
                  | none =>
                    rw [onField_map_json o _ t0 rfl]
                    exact inv_exit_none _ _ _ hE (fun _ => h1b) h2s h3
                  | some pm =>
                    by_cases hpo : isPlainObj pm = true
                    · cases pm with
                      | obj entries =>
                        by_cases hexc : exceeds entries.length o.maxFiles = true
                        · rw [onField_map_exceeds o _ t0 entries rfl hexc]
                          exact inv_exit_none _ _ _ hE (fun _ => h1b) h2s h3
                        · rw [onField_map_bind o _ t0 entries rfl
                            (by rw [Bool.not_eq_true] at hexc; exact hexc)]
                          have htblf : ∀ nu ∈ (bindEntries t0 [] s.nextId entries).2.1,
                              nu.2.file = none :=
                            bindEntries_table entries t0 [] s.nextId (by simp)
                          have h3f : ∀ tbl, some (bindEntries t0 [] s.nextId entries).2.1 = some tbl →
                              ∀ nu ∈ tbl, nu.2.file.isSome = true →
                              settledB nu.2.promise = true := by
                            intro tbl heqt nu hmem hfile
                            injection heqt with heqt
                            rw [← heqt] at hmem
                            rw [htblf nu hmem] at hfile
                            simp at hfile
                          cases hre : (bindEntries t0 [] s.nextId entries).2.2.2 with
                          | some e2 =>
                            simp only [hre]
                            refine inv_exit_none _ _ _ hE (fun _ => h1b) ?_ h3f
                            · intro _
                              refine ⟨?_, rfl⟩
                              show 2 ≤ s.fieldCount + 1
                              have hge := h1 (by rw [hops]; rfl)
                              omega
                          | none =>
                            simp only [hre]
                            refine ⟨fun _ => h1b, ?_, h3f, ?_, ?_, ?_⟩
                            · intro _
                              refine ⟨?_, rfl⟩
                              show 2 ≤ s.fieldCount + 1
                              have hge := h1 (by rw [hops]; rfl)
                              omega
                            · intro tbl hmap hcond
                              rcases hcond with hc1 | hc1
                              · rw [hE] at hc1
                                simp at hc1
                              · rw [hf] at hc1
                                exact absurd hc1 (by simp)
                            · intro hfin
                              rw [hf] at hfin
                              exact absurd hfin (by simp)
                            · intro hex
                              rw [hE] at hex
                              simp at hex
                      | null => simp [isPlainObj] at hpo
                      | bool b2 => simp [isPlainObj] at hpo
                      | num n2 => simp [isPlainObj] at hpo
                      | str st => simp [isPlainObj] at hpo
                      | arr xs => simp [isPlainObj] at hpo
                      | upload j => simp [isPlainObj] at hpo
                    · rw [onField_map_not_obj o _ t0 pm rfl
                        (by rw [Bool.not_eq_true] at hpo; exact hpo)]
                      exact inv_exit_none _ _ _ hE (fun _ => h1b) h2s h3
              · rw [onField_other o _ name value hn1 hn2]
                exact ⟨fun _ => h1b, h2b, h3, h4, h5, h6⟩
  | file fn meta outc =>
    cases hd : s.parserDestroyed with
    | true =>
      simp only [step]
      rw [if_pos hd]
      exact ⟨h1, h2, h3, h4, h5, h6⟩
    | false =>
      rw [step_file o s fn meta outc hd]
      have hE : s.exitError = none := hEof hd
      cases hm : s.map with
      | none =>
        rw [onFile_no_map o s fn meta outc hm]
        exact inv_exit_none _ _ _ hE h1 h2 h3
      | some tbl =>
        cases hlk : lookupU tbl fn with
        | none =>
          rw [onFile_extraneous o s fn meta outc tbl hm hlk]
          exact ⟨h1, h2, h3, h4, h5, h6⟩
        | some u =>
          rw [onFile_mapped o s fn meta outc tbl u hm hlk]
          refine ⟨h1, ?_, ?_, ?_, ?_, ?_⟩
          · intro _
            exact h2 (by rw [hm]; rfl)
          · intro tbl2 hmap nu hmem hfile
            injection hmap with hmap
            rw [← hmap] at hmem
            rcases mem_tblSet _ _ _ nu hmem with hh | hh
            · rw [hh]
              exact settledB_resolveP u.promise _
            · exact h3 tbl hm nu hh hfile
          · intro tbl2 hmap hcond
            injection hmap with hmap
            rw [← hmap]
            have hset : allSettled tbl = true := by
              rcases hcond with hc1 | hc1
              · rw [hE] at hc1
                simp at hc1
              · exact h4 tbl hm (Or.inr hc1)
            exact allSettled_tblSet tbl fn _ hset (settledB_resolveP u.promise _)
          · intro hfin
            exact Or.inr rfl
          · intro hex
            rw [hE] at hex
            simp at hex
  | filesLimit =>
    cases hd : s.parserDestroyed with
    | true =>
      simp only [step]
      rw [if_pos (Or.inl hd)]
      exact ⟨h1, h2, h3, h4, h5, h6⟩
    | false =>
      cases hff : s.filesLimitFired with
      | true =>
        simp only [step]
        rw [if_pos (Or.inr hff)]
        exact ⟨h1, h2, h3, h4, h5, h6⟩
      | false =>
        rw [step_filesLimit o s hd hff]
        exact inv_exit_none _ _ _ (hEof hd) h1 h2 h3
  | finish =>
    cases hd : s.parserDestroyed with
    | true =>
      simp only [step]
      rw [if_pos (Or.inl hd)]
      exact ⟨h1, h2, h3, h4, h5, h6⟩
    | false =>
      cases hf : s.finished with
      | true =>
        simp only [step]
        rw [if_pos (Or.inr hf)]
        exact ⟨h1, h2, h3, h4, h5, h6⟩
      | false =>
        rw [step_finish o s hd hf]
        have hE : s.exitError = none := hEof hd
        cases hops : s.operations with
        | none =>
          rw [onFinish_no_ops s hops]
          exact inv_exit_none _ _ _ hE h1 h2 h3
        | some t0 =>
          cases hm : s.map with
          | none =>
            rw [onFinish_no_map s t0 hops hm]
            exact inv_exit_none _ _ _ hE h1 h2 h3
          | some tbl =>
            rw [onFinish_sweep s t0 tbl hops hm]
            refine ⟨h1, ?_, ?_, ?_, ?_, ?_⟩
            · intro _
              exact h2 (by rw [hm]; rfl)
            · intro tbl2 hmap nu hmem hfile
              injection hmap with hmap
              rw [← hmap] at hmem
              simp [sweep] at hmem
              obtain ⟨a, bu, hm0, heq⟩ := hmem
              rw [← heq] at hfile
              rw [← heq]
              show settledB (rejectPending bu errFileMissing).promise = true
              refine settledB_rejectPending bu errFileMissing
                (fun hff2 => h3 tbl hm (a, bu) hm0 hff2)
            · intro tbl2 hmap _
              injection hmap with hmap
              rw [← hmap]
              exact allSettled_sweep tbl errFileMissing (h3 tbl hm)
            · intro _
              exact Or.inr rfl
            · intro hex
              rw [hE] at hex
              simp at hex
  | parserError e =>
    simp only [step]
    cases hx : s.exitError with
    | some e0 =>
      rw [exit_of_some s e e0 true hx]
      exact ⟨h1, h2, h3, h4, h5, h6⟩
    | none =>
      exact inv_exit_none s e true hx h1 h2 h3
  | requestClose re =>
    cases hrc : s.requestClosed with
    | true =>
      simp only [step]
      rw [if_pos hrc]
      exact ⟨h1, h2, h3, h4, h5, h6⟩
    | false =>
      cases re with
      | true =>
        simp only [step]
        rw [if_neg (by simp [hrc])]
        show Inv { s with requestClosed := true }
        exact ⟨h1, h2, h3, h4, h5, h6⟩
      | false =>
        rw [step_requestClose_notEnded o s hrc]
        cases hx : s.exitError with
        | some e0 =>
          rw [exit_of_some _ _ e0 false rfl]
          refine ⟨h1, h2, h3, ?_, h5, ?_⟩
          · intro tbl hm hc
            refine h4 tbl hm ?_
            rcases hc with hc1 | hc1
            · exact Or.inl (by rw [hx]; rfl)
            · exact Or.inr hc1
          · intro _
            exact h6 (by rw [hx]; rfl)
        | none =>
          exact inv_exit_none _ _ _ rfl h1 h2 h3
  | responseClose =>
    cases hrc : s.responseClosed with
    | true =>
      simp only [step]
      rw [if_pos hrc]
      exact ⟨h1, h2, h3, h4, h5, h6⟩
    | false =>
      simp only [step]
      rw [if_neg (by simp [hrc])]
      exact ⟨h1, h2, h3, h4, h5, h6⟩

theorem inv_run (o : ProcessRequestOptions) (events : List Event) :
    Inv (processRequest o events) := by
  rw [processRequest]
  induction events using List.reverseRecOn with
  | nil => exact inv_init
  | append_singleton evs ev ih =>
    rw [List.foldl_append]
    exact inv_step o _ ev ih

/-! ### Stability of settled placeholder promises -/

theorem lookupProm_eq (s2 : St) (tbl2 : List (String × Upload))
    (hm2 : s2.map = some tbl2) (name : String) :
    lookupProm s2 name = (lookupU tbl2 name).map (fun u => u.promise) := by
  simp only [lookupProm, hm2]

theorem lookupProm_none (s2 : St) (hm2 : s2.map = none) (name : String) :
    lookupProm s2 name = none := by
  simp only [lookupProm, hm2]

theorem lookupU_sweep_promise (tbl : List (String × Upload)) (e : Err) (name : String)
    (u : Upload) (hlu : lookupU tbl name = some u)
    (hset : settledB u.promise = true) :
    (lookupU (sweep tbl e) name).map (fun u2 => u2.promise) = some u.promise := by
  rw [lookupU_sweep, hlu]
  simp [rejectPending_settled u e hset]

theorem lookupProm_exit (s : St) (e : Err) (b : Bool) (name : String)
    (p : Promise FileUpload) (hl : lookupProm s name = some p)
    (hs : settledB p = true) : lookupProm (exit s e b) name = some p := by
  cases hx : s.exitError with
  | some e0 =>
    rw [exit_of_some s e e0 b hx]
    exact hl
  | none =>
    cases hsm : s.map with
    | none =>
      rw [lookupProm_none s hsm name] at hl
      simp at hl
    | some tbl =>
      rw [lookupProm_eq s tbl hsm name] at hl
      cases hlu : lookupU tbl name with
      | none =>
        rw [hlu] at hl
        simp at hl
      | some u =>
        rw [hlu] at hl
        simp at hl
        have hset : settledB u.promise = true := by
          rw [hl]
          exact hs
        rw [exit_of_none s e b hx]
        rw [lookupProm_eq _ (sweep tbl e) (by simp [hsm]) name]
        rw [lookupU_sweep_promise tbl e name u hlu hset, hl]

theorem lookupProm_stable_step (o : ProcessRequestOptions) (s : St) (ev : Event)
    (name : String) (p : Promise FileUpload) (hI : Inv s)
    (hl : lookupProm s name = some p) (hs : settledB p = true) :
    lookupProm (step o s ev) name = some p := by
  obtain ⟨h1, h2, h3, h4, h5, h6⟩ := hI
  cases hsm : s.map with
  | none =>
    rw [lookupProm_none s hsm name] at hl
    simp at hl
  | some tbl =>
    have hmm : s.map.isSome = true := by rw [hsm]; rfl
    rw [lookupProm_eq s tbl hsm name] at hl
    cases hlu : lookupU tbl name with
    | none =>
      rw [hlu] at hl
      simp at hl
    | some u =>
      have hup : u.promise = p := by
        rw [hlu] at hl
        simpa using hl
      have hset : settledB u.promise = true := by
        rw [hup]
        exact hs
      cases ev with
      | field fname value tr =>
        have hcnt := (h2 hmm).1
        simp only [step]
        rw [if_pos (Or.inr (Or.inr hcnt))]
        rw [lookupProm_eq s tbl hsm name, hlu]
        simp [hup]
      | file fn meta outc =>
        cases hd : s.parserDestroyed with
        | true =>
          simp only [step]
          rw [if_pos hd]
          rw [lookupProm_eq s tbl hsm name, hlu]
          simp [hup]
        | false =>
          rw [step_file o s fn meta outc hd]
          cases hlk : lookupU tbl fn with
          | none =>
            rw [onFile_extraneous o s fn meta outc tbl hsm hlk]
            rw [lookupProm_eq s tbl hsm name, hlu]
            simp [hup]
          | some u2 =>
            rw [onFile_mapped o s fn meta outc tbl u2 hsm hlk]
            rw [lookupProm_eq _ (tblSet tbl fn (u2.resolveWith (mkFile o meta outc))) rfl name]
            by_cases hfn : fn = name
            · subst hfn
              rw [lookupU_tblSet_self]
              have hu2 : u2 = u := by
                rw [hlk] at hlu
                injection hlu
              subst hu2
              simp [Upload.resolveWith, hup, resolveP_settled p (mkFile o meta outc) hs]
            · rw [lookupU_tblSet_ne tbl fn name _ hfn, hlu]
              simp [hup]
      | filesLimit =>
        cases hd : s.parserDestroyed with
        | true =>
          simp only [step]
          rw [if_pos (Or.inl hd)]
          rw [lookupProm_eq s tbl hsm name, hlu]
          simp [hup]
        | false =>
          cases hff : s.filesLimitFired with
          | true =>
            simp only [step]
            rw [if_pos (Or.inr hff)]
            rw [lookupProm_eq s tbl hsm name, hlu]
            simp [hup]
          | false =>
            rw [step_filesLimit o s hd hff]
            refine lookupProm_exit _ _ _ name p ?_ hs
            have hmap2 : ({ s with filesLimitFired := true } : St).map = some tbl := hsm
            rw [lookupProm_eq _ tbl hmap2 name, hlu]
            simp [hup]
      | finish =>
        cases hd : s.parserDestroyed with
        | true =>
          simp only [step]
          rw [if_pos (Or.inl hd)]
          rw [lookupProm_eq s tbl hsm name, hlu]
          simp [hup]
        | false =>
          cases hf : s.finished with
          | true =>
            simp only [step]
            rw [if_pos (Or.inr hf)]
            rw [lookupProm_eq s tbl hsm name, hlu]
            simp [hup]
          | false =>
            rw [step_finish o s hd hf]
            cases hops : s.operations with
            | none =>
              rw [onFinish_no_ops s hops]
              refine lookupProm_exit _ _ _ name p ?_ hs
              have hmap2 : ({ s with finished := true } : St).map = some tbl := hsm
              rw [lookupProm_eq _ tbl hmap2 name, hlu]
              simp [hup]
            | some t0 =>
              rw [onFinish_sweep s t0 tbl hops hsm]
              rw [lookupProm_eq _ (sweep tbl errFileMissing) rfl name]
              rw [lookupU_sweep_promise tbl errFileMissing name u hlu hset, hup]
      | parserError e =>
        simp only [step]
        refine lookupProm_exit s e true name p ?_ hs
        rw [lookupProm_eq s tbl hsm name, hlu]
        simp [hup]
      | requestClose re =>
        cases hrc : s.requestClosed with
        | true =>
          simp only [step]
          rw [if_pos hrc]
          rw [lookupProm_eq s tbl hsm name, hlu]
          simp [hup]
        | false =>
          cases re with
          | true =>
            simp only [step]
            rw [if_neg (by simp [hrc])]
            show lookupProm { s with requestClosed := true } name = some p
            have hmap2 : ({ s with requestClosed := true } : St).map = some tbl := hsm
            rw [lookupProm_eq _ tbl hmap2 name, hlu]
            simp [hup]
          | false =>
            rw [step_requestClose_notEnded o s hrc]
            refine lookupProm_exit _ _ _ name p ?_ hs
            have hmap2 : ({ s with requestClosed := true } : St).map = some tbl := hsm
            rw [lookupProm_eq _ tbl hmap2 name, hlu]
            simp [hup]
      | responseClose =>
        cases hrc : s.responseClosed with
        | true =>
          simp only [step]
          rw [if_pos hrc]
          rw [lookupProm_eq s tbl hsm name, hlu]
          simp [hup]
        | false =>
          simp only [step]
          rw [if_neg (by simp [hrc])]
          have hmap2 : ({ s with responseClosed := true, released := true } : St).map
              = some tbl := hsm
          rw [lookupProm_eq _ tbl hmap2 name, hlu]
          simp [hup]

theorem lookupProm_stable (o : ProcessRequestOptions) :
    ∀ (more events : List Event) (name : String) (p : Promise FileUpload),
    lookupProm (processRequest o events) name = some p → settledB p = true →
    lookupProm (processRequest o (events ++ more)) name = some p := by
  intro more
  induction more with
  | nil =>
    intro events name p hl _
    simpa using hl
  | cons ev rest ih =>
    intro events name p hl hs
    have hstep : lookupProm (processRequest o (events ++ [ev])) name = some p := by
      rw [processRequest, List.foldl_append]
      exact lookupProm_stable_step o (processRequest o events) ev name p
        (inv_run o events) hl hs
    have hrec := ih (events ++ [ev]) name p hstep hs
    rw [List.append_assoc] at hrec
    exact hrec

/-! ### The claims -/

/-- Claim C2 (confirmed): every Upload placeholder created from a map entry
is settled exactly once by the end of the request cycle.  First conjunct:
whenever a run ends with the exit path taken or the finish handler run,
every placeholder in the table has settled.  Second conjunct: a placeholder
promise that has settled keeps exactly that settled value under any further
events — a later resolve or reject is a no-op on the promise. -/
theorem c2_placeholder_settled_exactly_once (o : ProcessRequestOptions)
    (events more : List Event) (tbl : List (String × Upload))
    (name : String) (p : Promise FileUpload)
    (hm : (processRequest o events).map = some tbl)
    (hend : (processRequest o events).exitError.isSome = true ∨
            (processRequest o events).finished = true)
    (hl : lookupProm (processRequest o events) name = some p)
    (hs : settledB p = true) :
    allSettled tbl = true ∧
    lookupProm (processRequest o (events ++ more)) name = some p := by
  constructor
  · exact (inv_run o events).2.2.2.1 tbl hm hend
  · exact lookupProm_stable o more events name p hl hs

/-- Witness for C2 at a concrete run: operations, a one-entry map, then
`finish`; the placeholder is rejected with the file-missing error and stays
so under a further response-close event. -/
theorem c2_witness :
    (processRequest defaultOptions trFinishA).map
        = some [("a", { id := 0, file := none, promise := .rejected errFileMissing })] ∧
    (processRequest defaultOptions trFinishA).finished = true ∧
    lookupProm (processRequest defaultOptions trFinishA) "a"
        = some (.rejected errFileMissing) ∧
    settledB (Promise.rejected (α := FileUpload) errFileMissing) = true ∧
    allSettled [("a", { id := 0, file := none, promise := .rejected errFileMissing })] = true ∧
    lookupProm (processRequest defaultOptions (trFinishA ++ [.responseClose])) "a"
        = some (.rejected errFileMissing) := by
  have hmain := c2_placeholder_settled_exactly_once defaultOptions trFinishA
    [.responseClose]
    [("a", { id := 0, file := none, promise := .rejected errFileMissing })]
    "a" (.rejected errFileMissing) rfl (Or.inr rfl) rfl rfl
  exact ⟨rfl, rfl, rfl, rfl, hmain.1, hmain.2⟩

/-- Claim C7 (confirmed): the ‘operations’ field value is accepted exactly
when it parses as JSON to an object or an array; a parse failure rejects
with the 400 invalid-JSON error; JSON null and scalars reject with the 400
invalid-type error; objects and arrays are stored and nothing is
rejected.  Stated against `operationsErrSpec`, the acceptance rule written
from the spec. -/
theorem c7_operations_acceptance (o : ProcessRequestOptions) (s : St) (ov : Option JVal)
    (hd : s.parserDestroyed = false) (hf : s.finished = false) (hcnt : s.fieldCount < 2)
    (hE : s.exitError = none) (hres : s.result = .pending) :
    (step o s (.field "operations" ov false)).operations
        = (match operationsErrSpec ov with
           | none => ov
           | some _ => s.operations) ∧
    (step o s (.field "operations" ov false)).exitError = operationsErrSpec ov ∧
    (step o s (.field "operations" ov false)).result
        = (match operationsErrSpec ov with
           | none => Promise.pending
           | some e => Promise.rejected e) := by
  rw [step_field o s "operations" ov false hd hf hcnt]
  have hEb : ({ s with fieldCount := s.fieldCount + 1 } : St).exitError = none := hE
  cases ov with
  | none =>
    rw [onField_ops_json, exit_of_none _ _ _ hEb]
    refine ⟨rfl, rfl, ?_⟩
    show s.result.rejectP errOpsJson = Promise.rejected errOpsJson
    rw [hres]
    rfl
  | some v =>
    rw [onField_ops_val]
    cases v with
    | obj kvs =>
      rw [if_pos (show isObjOrArr (.obj kvs) = true from rfl)]
      exact ⟨rfl, hE, hres⟩
    | arr xs =>
      rw [if_pos (show isObjOrArr (.arr xs) = true from rfl)]
      exact ⟨rfl, hE, hres⟩
    | null =>
      rw [if_neg (by simp [isObjOrArr]), exit_of_none _ _ _ hEb]
      refine ⟨rfl, rfl, ?_⟩
      show s.result.rejectP errOpsType = Promise.rejected errOpsType
      rw [hres]
      rfl
    | bool b =>
      rw [if_neg (by simp [isObjOrArr]), exit_of_none _ _ _ hEb]
      refine ⟨rfl, rfl, ?_⟩
      show s.result.rejectP errOpsType = Promise.rejected errOpsType
      rw [hres]
      rfl
    | num n =>
      rw [if_neg (by simp [isObjOrArr]), exit_of_none _ _ _ hEb]
      refine ⟨rfl, rfl, ?_⟩
      show s.result.rejectP errOpsType = Promise.rejected errOpsType
      rw [hres]
      rfl
    | str st =>
      rw [if_neg (by simp [isObjOrArr]), exit_of_none _ _ _ hEb]
      refine ⟨rfl, rfl, ?_⟩
      show s.result.rejectP errOpsType = Promise.rejected errOpsType
      rw [hres]
      rfl
    | upload j =>
      rw [if_neg (by simp [isObjOrArr]), exit_of_none _ _ _ hEb]
      refine ⟨rfl, rfl, ?_⟩
      show s.result.rejectP errOpsType = Promise.rejected errOpsType
      rw [hres]
      rfl

/-- Witness for C7 at the initial state with the parsed value JSON null:
the field is rejected with the invalid-type error. -/
theorem c7_witness :
    initSt.parserDestroyed = false ∧ initSt.finished = false ∧
    initSt.fieldCount < 2 ∧ initSt.exitError = none ∧ initSt.result = .pending ∧
    ((step defaultOptions initSt (.field "operations" (some JVal.null) false)).operations
        = (match operationsErrSpec (some JVal.null) with
           | none => some JVal.null
           | some _ => initSt.operations) ∧
     (step defaultOptions initSt (.field "operations" (some JVal.null) false)).exitError
        = operationsErrSpec (some JVal.null) ∧
     (step defaultOptions initSt (.field "operations" (some JVal.null) false)).result
        = (match operationsErrSpec (some JVal.null) with
           | none => Promise.pending
           | some e => Promise.rejected e)) := by
  refine ⟨rfl, rfl, by decide, rfl, rfl, ?_⟩
  exact c7_operations_acceptance defaultOptions initSt (some JVal.null)
    rfl rfl (by decide) rfl rfl

/-- Claim C3 (corrected): field ordering is a fatal 400 protocol error.  A
non-truncated `map` field arriving before `operations` was classified
rejects the overall result with the 400 misordered-fields error, and a
file part arriving before `map` was classified rejects the overall result
with the 400 misordered-fields error (the stream itself is drained by
`ignoreStream`, an I/O effect outside the processor state).  The original
claim said a `map` field before `operations` never yields a different
error kind; a truncated such field yields the 413 field-size error
instead — see the counterexample. -/
theorem c3_misordered_fields_reject (o : ProcessRequestOptions) (s sF : St)
    (value : Option JVal) (fn : String) (meta : FileMeta) (outc : FileOutcome)
    (hd : s.parserDestroyed = false) (hf : s.finished = false)
    (hcnt : s.fieldCount < 2) (hE : s.exitError = none)
    (hres : s.result = .pending) (hops : s.operations = none)
    (hdF : sF.parserDestroyed = false) (hEF : sF.exitError = none)
    (hresF : sF.result = .pending) (hmF : sF.map = none) :
    (step o s (.field "map" value false)).result = .rejected errMapBeforeOps ∧
    (step o s (.field "map" value false)).exitError = some errMapBeforeOps ∧
    errMapBeforeOps.status = some 400 ∧
    (step o sF (.file fn meta outc)).result = .rejected errFilesBeforeMap ∧
    (step o sF (.file fn meta outc)).exitError = some errFilesBeforeMap ∧
    errFilesBeforeMap.status = some 400 := by
  have hopsb : ({ s with fieldCount := s.fieldCount + 1 } : St).operations = none := hops
  have hEb : ({ s with fieldCount := s.fieldCount + 1 } : St).exitError = none := hE
  rw [step_field o s "map" value false hd hf hcnt]
  rw [onField_map_no_ops o _ value hopsb, exit_of_none _ _ _ hEb]
  rw [step_file o sF fn meta outc hdF]
  rw [onFile_no_map o sF fn meta outc hmF, exit_of_none _ _ _ hEF]
  refine ⟨?_, rfl, rfl, ?_, rfl, rfl⟩
  · show s.result.rejectP errMapBeforeOps = .rejected errMapBeforeOps
    rw [hres]
    rfl
  · show sF.result.rejectP errFilesBeforeMap = .rejected errFilesBeforeMap
    rw [hresF]
    rfl

/-- Counterexample to C3 as stated: a truncated `map` field arriving
before `operations` is rejected with the 413 field-size error, not the 400
misordered-fields error — a different error kind. -/
theorem c3_counterexample :
    (processRequest defaultOptions trC3).result
        = .rejected (errFieldTruncated defaultOptions "map") ∧
    (processRequest defaultOptions trC3).exitError
        = some (errFieldTruncated defaultOptions "map") ∧
    (errFieldTruncated defaultOptions "map").status = some 413 ∧
    (errFieldTruncated defaultOptions "map").status ≠ some 400 ∧
    (processRequest defaultOptions trC3).result ≠ .rejected errMapBeforeOps := by
  refine ⟨rfl, rfl, rfl, by decide, ?_⟩
  intro h
  have h1 : (processRequest defaultOptions trC3).result
      = .rejected (errFieldTruncated defaultOptions "map") := rfl
  rw [h1] at h
  injection h with h2
  exact absurd h2 (by decide)

/-- Witness for C3 at the initial state. -/
theorem c3_witness :
    initSt.parserDestroyed = false ∧ initSt.operations = none ∧ initSt.map = none ∧
    initSt.exitError = none ∧ initSt.result = .pending ∧
    ((step defaultOptions initSt (.field "map" none false)).result
        = .rejected errMapBeforeOps ∧
     (step defaultOptions initSt (.field "map" none false)).exitError
        = some errMapBeforeOps ∧
     errMapBeforeOps.status = some 400 ∧
     (step defaultOptions initSt (.file "a" exMeta .ok)).result
        = .rejected errFilesBeforeMap ∧
     (step defaultOptions initSt (.file "a" exMeta .ok)).exitError
        = some errFilesBeforeMap ∧
     errFilesBeforeMap.status = some 400) := by
  refine ⟨rfl, rfl, rfl, rfl, rfl, ?_⟩
  exact c3_misordered_fields_reject defaultOptions initSt initSt none "a" exMeta .ok
    rfl rfl (by decide) rfl rfl rfl rfl rfl rfl rfl

/-- Claim C4 (corrected): the exit path is single-shot.  The first call
records its error, sweeps the table — rejecting with that error exactly
the placeholders that are still pending (placeholders whose promise has
settled, and placeholders carrying a file, are untouched) — and applies
the reject capability to the outer promise, which rejects it when still
pending and leaves an already-resolved result unchanged; every later call
is a no-op.  The original claim said the first call always rejects the
overall result promise with its error; when the result already resolved at
map-binding time it stays resolved — see the counterexample. -/
theorem c4_exit_single_shot (s : St) (e e2 : Err) (b b2 : Bool)
    (tbl : List (String × Upload)) (uid : Nat) (u : Upload) (t : JVal)
    (hE : s.exitError = none) (hm : s.map = some tbl)
    (hu : settledB u.promise = true) :
    (exit s e b).exitError = some e ∧
    (exit s e b).map = some (sweep tbl e) ∧
    (exit s e b).result = s.result.rejectP e ∧
    rejectPending { id := uid, file := none, promise := .pending } e
        = { id := uid, file := none, promise := .rejected e } ∧
    rejectPending u e = u ∧
    Promise.rejectP (α := JVal) .pending e = .rejected e ∧
    Promise.rejectP (α := JVal) (.resolved t) e = .resolved t ∧
    exit (exit s e b) e2 b2 = exit s e b := by
  rw [exit_of_none s e b hE]
  refine ⟨rfl, ?_, rfl, by simp [rejectPending, Promise.rejectP],
    rejectPending_settled u e hu, rfl, rfl, ?_⟩
  · show Option.map (fun tbl2 => sweep tbl2 e) s.map = some (sweep tbl e)
    rw [hm]
    rfl
  · exact exit_of_some _ e2 e b2 rfl

/-- Counterexample to C4 as stated: after the map was bound the outer
promise is resolved; the first `exit` call records its error and yet the
outer promise stays resolved instead of rejecting. -/
theorem c4_counterexample :
    (processRequest defaultOptions trOpsMapA).exitError = none ∧
    (processRequest defaultOptions trOpsMapA).result
        = .resolved (.obj [("x", .upload 0)]) ∧
    (exit (processRequest defaultOptions trOpsMapA) errDisconnected false).exitError
        = some errDisconnected ∧
    (exit (processRequest defaultOptions trOpsMapA) errDisconnected false).result
        = .resolved (.obj [("x", .upload 0)]) ∧
    Promise.isRejectedB
        (exit (processRequest defaultOptions trOpsMapA) errDisconnected false).result
      = false :=
  ⟨rfl, rfl, rfl, rfl, rfl⟩

/-- Witness for C4 at the state reached after operations and map. -/
theorem c4_witness :
    (processRequest defaultOptions trOpsMapA).exitError = none ∧
    (processRequest defaultOptions trOpsMapA).map
        = some [("a", { id := 0, file := none, promise := .pending })] ∧
    settledB (Promise.rejected (α := FileUpload) errFileMissing) = true ∧
    ((exit (processRequest defaultOptions trOpsMapA) errDisconnected false).exitError
        = some errDisconnected ∧
     (exit (processRequest defaultOptions trOpsMapA) errDisconnected false).map
        = some (sweep [("a", { id := 0, file := none, promise := .pending })]
            errDisconnected) ∧
     (exit (processRequest defaultOptions trOpsMapA) errDisconnected false).result
        = (processRequest defaultOptions trOpsMapA).result.rejectP errDisconnected ∧
     rejectPending { id := 7, file := none, promise := .pending } errDisconnected
        = { id := 7, file := none, promise := .rejected errDisconnected } ∧
     rejectPending { id := 3, file := none, promise := .rejected errFileMissing }
        errDisconnected
        = { id := 3, file := none, promise := .rejected errFileMissing } ∧
     Promise.rejectP (α := JVal) .pending errDisconnected = .rejected errDisconnected ∧
     Promise.rejectP (α := JVal) (.resolved JVal.null) errDisconnected
        = .resolved JVal.null ∧
     exit (exit (processRequest defaultOptions trOpsMapA) errDisconnected false)
        errFileMissing true
        = exit (processRequest defaultOptions trOpsMapA) errDisconnected false) := by
  refine ⟨rfl, rfl, rfl, ?_⟩
  exact c4_exit_single_shot (processRequest defaultOptions trOpsMapA)
    errDisconnected errFileMissing false true
    [("a", { id := 0, file := none, promise := .pending })] 7
    { id := 3, file := none, promise := .rejected errFileMissing } JVal.null
    rfl rfl rfl

/-- Claim C9 (corrected): a request close before the body was fully read
invokes the exit path with the 499 disconnect error: the error is
recorded, every still-pending placeholder is rejected with it (settled
ones are untouched), and the reject capability is applied to the overall
result, rejecting it when still pending; 499 is distinct from the 400 and
413 error kinds.  The original claim said the overall result promise
always rejects with the 499 error; when the result already resolved at
map-binding time it stays resolved — see the counterexample. -/
theorem c9_disconnect_499 (o : ProcessRequestOptions) (s : St)
    (tbl : List (String × Upload)) (uid : Nat) (u : Upload)
    (hrc : s.requestClosed = false) (hE : s.exitError = none)
    (hm : s.map = some tbl) (hu : settledB u.promise = true) :
    (step o s (.requestClose false)).exitError = some errDisconnected ∧
    (step o s (.requestClose false)).map = some (sweep tbl errDisconnected) ∧
    (step o s (.requestClose false)).result = s.result.rejectP errDisconnected ∧
    rejectPending { id := uid, file := none, promise := .pending } errDisconnected
        = { id := uid, file := none, promise := .rejected errDisconnected } ∧
    rejectPending u errDisconnected = u ∧
    Promise.rejectP (α := JVal) .pending errDisconnected = .rejected errDisconnected ∧
    errDisconnected.status = some 499 ∧
    errDisconnected.status ≠ some 400 ∧
    errDisconnected.status ≠ some 413 := by
  rw [step_requestClose_notEnded o s hrc]
  have hEb : ({ s with requestClosed := true } : St).exitError = none := hE
  rw [exit_of_none _ _ _ hEb]
  refine ⟨rfl, ?_, rfl, by simp [rejectPending, Promise.rejectP],
    rejectPending_settled u errDisconnected hu, rfl, rfl, by decide, by decide⟩
  show Option.map (fun tbl2 => sweep tbl2 errDisconnected) s.map
      = some (sweep tbl errDisconnected)
  rw [hm]
  rfl

/-- Counterexample to C9 as stated: after operations and map were bound the
outer promise is resolved; the mid-upload disconnect records the 499 error
and rejects the still-pending placeholder with it, but the overall result
promise stays resolved instead of rejecting. -/
theorem c9_counterexample :
    (processRequest defaultOptions trC9).exitError = some errDisconnected ∧
    lookupProm (processRequest defaultOptions trC9) "b"
        = some (.rejected errDisconnected) ∧
    (processRequest defaultOptions trC9).result
        = .resolved (.obj [("y", .upload 0)]) ∧
    Promise.isRejectedB (processRequest defaultOptions trC9).result = false :=
  ⟨rfl, rfl, rfl, rfl⟩

/-- Witness for C9 at the state reached after operations and map. -/
theorem c9_witness :
    (processRequest defaultOptions trOpsMapA).requestClosed = false ∧
    (processRequest defaultOptions trOpsMapA).exitError = none ∧
    (processRequest defaultOptions trOpsMapA).map
        = some [("a", { id := 0, file := none, promise := .pending })] ∧
    ((step defaultOptions (processRequest defaultOptions trOpsMapA)
        (.requestClose false)).exitError = some errDisconnected ∧
     (step defaultOptions (processRequest defaultOptions trOpsMapA)
        (.requestClose false)).map
        = some (sweep [("a", { id := 0, file := none, promise := .pending })]
            errDisconnected) ∧
     (step defaultOptions (processRequest defaultOptions trOpsMapA)
        (.requestClose false)).result
        = (processRequest defaultOptions trOpsMapA).result.rejectP errDisconnected ∧
     rejectPending { id := 2, file := none, promise := .pending } errDisconnected
        = { id := 2, file := none, promise := .rejected errDisconnected } ∧
     rejectPending { id := 4, file := none,
                     promise := .resolved (mkFile defaultOptions exMeta .ok) }
        errDisconnected
        = { id := 4, file := none,
            promise := .resolved (mkFile defaultOptions exMeta .ok) } ∧
     Promise.rejectP (α := JVal) .pending errDisconnected = .rejected errDisconnected ∧
     errDisconnected.status = some 499 ∧
     errDisconnected.status ≠ some 400 ∧
     errDisconnected.status ≠ some 413) := by
  refine ⟨rfl, rfl, rfl, ?_⟩
  exact c9_disconnect_499 defaultOptions (processRequest defaultOptions trOpsMapA)
    [("a", { id := 0, file := none, promise := .pending })] 2
    { id := 4, file := none, promise := .resolved (mkFile defaultOptions exMeta .ok) }
    rfl rfl rfl rfl

/-- Claim C8 (corrected): the maxFiles ceiling is enforced with status 413
on both paths.  If the parsed map has more entries than maxFiles the
overall result rejects with the 413 error before any placeholder is
created — the table stays absent and the parser is destroyed, so no later
file event is processed.  If busboy reports that actual file arrivals
exceeded the limit, the filesLimit path invokes the single-shot exit with
the same 413 error: it is recorded, every still-pending placeholder
rejects with it, and the reject capability is applied to the overall
result, rejecting it when still pending.  The original claim said the
filesLimit path rejects the overall result; by the time file parts arrive
the result has normally already resolved at map-binding time and stays
resolved — see the counterexample. -/
theorem c8_max_files_413 (o : ProcessRequestOptions) (s sF : St) (t0 : JVal)
    (entries : List (String × JVal)) (tbl : List (String × Upload))
    (uid : Nat) (u : Upload)
    (hd : s.parserDestroyed = false) (hf : s.finished = false)
    (hcnt : s.fieldCount < 2) (hE : s.exitError = none)
    (hres : s.result = .pending) (hops : s.operations = some t0)
    (hmap : s.map = none)
    (hexc : exceeds entries.length o.maxFiles = true)
    (hdF : sF.parserDestroyed = false) (hffF : sF.filesLimitFired = false)
    (hEF : sF.exitError = none) (hmF : sF.map = some tbl)
    (hu : settledB u.promise = true) :
    (step o s (.field "map" (some (.obj entries)) false)).exitError
        = some (errTooManyFiles o) ∧
    (step o s (.field "map" (some (.obj entries)) false)).result
        = .rejected (errTooManyFiles o) ∧
    (step o s (.field "map" (some (.obj entries)) false)).map = none ∧
    (step o s (.field "map" (some (.obj entries)) false)).parserDestroyed = true ∧
    (step o sF .filesLimit).exitError = some (errTooManyFiles o) ∧
    (step o sF .filesLimit).map = some (sweep tbl (errTooManyFiles o)) ∧
    (step o sF .filesLimit).result = sF.result.rejectP (errTooManyFiles o) ∧
    rejectPending { id := uid, file := none, promise := .pending } (errTooManyFiles o)
        = { id := uid, file := none, promise := .rejected (errTooManyFiles o) } ∧
    rejectPending u (errTooManyFiles o) = u ∧
    (errTooManyFiles o).status = some 413 := by
  have hopsb : ({ s with fieldCount := s.fieldCount + 1 } : St).operations = some t0 := hops
  have hEb : ({ s with fieldCount := s.fieldCount + 1 } : St).exitError = none := hE
  rw [step_field o s "map" (some (.obj entries)) false hd hf hcnt]
  rw [onField_map_exceeds o _ t0 entries hopsb hexc, exit_of_none _ _ _ hEb]
  rw [step_filesLimit o sF hdF hffF]
  have hEbf : ({ sF with filesLimitFired := true } : St).exitError = none := hEF
  rw [exit_of_none _ _ _ hEbf]
  refine ⟨rfl, ?_, ?_, rfl, rfl, ?_, rfl, by simp [rejectPending, Promise.rejectP],
    rejectPending_settled u _ hu, rfl⟩
  · show s.result.rejectP (errTooManyFiles o) = .rejected (errTooManyFiles o)
    rw [hres]
    rfl
  · show Option.map (fun tbl2 => sweep tbl2 (errTooManyFiles o)) s.map = none
    rw [hmap]
    rfl
  · show Option.map (fun tbl2 => sweep tbl2 (errTooManyFiles o)) sF.map
        = some (sweep tbl (errTooManyFiles o))
    rw [hmF]
    rfl

/-- Counterexample to C8 as stated: with `maxFiles = 1`, after the
one-entry map was bound the result is resolved; the filesLimit event
records the 413 error and rejects the pending placeholder with it, but the
overall result promise stays resolved instead of rejecting. -/
theorem c8_counterexample :
    (processRequest exO1 trC8).exitError = some (errTooManyFiles exO1) ∧
    (processRequest exO1 trC8).result = .resolved (.obj [("x", .upload 0)]) ∧
    Promise.isRejectedB (processRequest exO1 trC8).result = false ∧
    lookupProm (processRequest exO1 trC8) "a"
        = some (.rejected (errTooManyFiles exO1)) :=
  ⟨rfl, rfl, rfl, rfl⟩

/-- Witness for C8: a two-entry map against `maxFiles = 1`, and a
filesLimit event against the bound one-entry table. -/
theorem c8_witness :
    exceeds ([("a", JVal.arr [.str "x"]), ("b", JVal.arr [.str "x"])]
        : List (String × JVal)).length exO1.maxFiles = true ∧
    (processRequest exO1 [.field "operations" (some exOpsX) false]).operations
        = some exOpsX ∧
    (processRequest exO1 [.field "operations" (some exOpsX) false]).map = none ∧
    (processRequest exO1 trOpsMapA).map
        = some [("a", { id := 0, file := none, promise := .pending })] ∧
    ((step exO1 (processRequest exO1 [.field "operations" (some exOpsX) false])
        (.field "map" (some (.obj [("a", JVal.arr [.str "x"]),
          ("b", JVal.arr [.str "x"])])) false)).exitError
        = some (errTooManyFiles exO1) ∧
     (step exO1 (processRequest exO1 trOpsMapA) .filesLimit).exitError
        = some (errTooManyFiles exO1) ∧
     (errTooManyFiles exO1).status = some 413) := by
  have hmain := c8_max_files_413 exO1
    (processRequest exO1 [.field "operations" (some exOpsX) false])
    (processRequest exO1 trOpsMapA) exOpsX
    [("a", JVal.arr [.str "x"]), ("b", JVal.arr [.str "x"])]
    [("a", { id := 0, file := none, promise := .pending })] 1
    { id := 5, file := none, promise := .rejected errFileMissing }
    rfl rfl (by decide) rfl rfl rfl rfl rfl rfl rfl rfl rfl rfl
  exact ⟨rfl, rfl, rfl, rfl, hmain.1, hmain.2.2.2.2.1, hmain.2.2.2.2.2.2.2.2.2⟩

/-- Claim C10 (confirmed): when the multipart form finishes without a prior
exit: a missing `operations` field rejects the overall result with the 400
missing-operations error; otherwise a missing `map` field rejects it with
the 400 missing-map error; otherwise every placeholder whose file never
arrived is rejected with the 400 file-missing error, while the overall
result and settled placeholders are unchanged. -/
theorem c10_finish_handler (o : ProcessRequestOptions) (sA sB sC : St) (t0 tC : JVal)
    (tbl : List (String × Upload)) (uid : Nat) (u : Upload)
    (hdA : sA.parserDestroyed = false) (hfA : sA.finished = false)
    (hEA : sA.exitError = none) (hresA : sA.result = .pending)
    (hopsA : sA.operations = none)
    (hdB : sB.parserDestroyed = false) (hfB : sB.finished = false)
    (hEB : sB.exitError = none) (hresB : sB.result = .pending)
    (hopsB : sB.operations = some t0) (hmB : sB.map = none)
    (hdC : sC.parserDestroyed = false) (hfC : sC.finished = false)
    (hEC : sC.exitError = none) (hopsC : sC.operations = some tC)
    (hmC : sC.map = some tbl) (hu : settledB u.promise = true) :
    (step o sA .finish).result = .rejected errMissingOps ∧
    (step o sA .finish).exitError = some errMissingOps ∧
    (step o sB .finish).result = .rejected errMissingMap ∧
    (step o sB .finish).exitError = some errMissingMap ∧
    (step o sC .finish).map = some (sweep tbl errFileMissing) ∧
    (step o sC .finish).result = sC.result ∧
    (step o sC .finish).exitError = none ∧
    rejectPending { id := uid, file := none, promise := .pending } errFileMissing
        = { id := uid, file := none, promise := .rejected errFileMissing } ∧
    rejectPending u errFileMissing = u ∧
    errMissingOps.status = some 400 ∧ errMissingMap.status = some 400 ∧
    errFileMissing.status = some 400 ∧
    errFileMissing.msg = "File missing in the request." := by
  rw [step_finish o sA hdA hfA, onFinish_no_ops sA hopsA]
  have hEbA : ({ sA with finished := true } : St).exitError = none := hEA
  rw [exit_of_none _ _ _ hEbA]
  rw [step_finish o sB hdB hfB, onFinish_no_map sB t0 hopsB hmB]
  have hEbB : ({ sB with finished := true } : St).exitError = none := hEB
  rw [exit_of_none _ _ _ hEbB]
  rw [step_finish o sC hdC hfC, onFinish_sweep sC tC tbl hopsC hmC]
  refine ⟨?_, rfl, ?_, rfl, rfl, rfl, hEC, by simp [rejectPending, Promise.rejectP],
    rejectPending_settled u _ hu, rfl, rfl, rfl, rfl⟩
  · show sA.result.rejectP errMissingOps = .rejected errMissingOps
    rw [hresA]
    rfl
  · show sB.result.rejectP errMissingMap = .rejected errMissingMap
    rw [hresB]
    rfl

/-- Witness for C10 at three concrete states: the initial state, a state
with only operations classified, and a state with operations and map
bound. -/
theorem c10_witness :
    initSt.operations = none ∧
    (processRequest defaultOptions [.field "operations" (some exOpsX) false]).operations
        = some exOpsX ∧
    (processRequest defaultOptions [.field "operations" (some exOpsX) false]).map
        = none ∧
    (processRequest defaultOptions trOpsMapA).map
        = some [("a", { id := 0, file := none, promise := .pending })] ∧
    ((step defaultOptions initSt .finish).result = .rejected errMissingOps ∧
     (step defaultOptions
        (processRequest defaultOptions [.field "operations" (some exOpsX) false])
        .finish).result = .rejected errMissingMap ∧
     (step defaultOptions (processRequest defaultOptions trOpsMapA) .finish).map
        = some (sweep [("a", { id := 0, file := none, promise := .pending })]
            errFileMissing) ∧
     (step defaultOptions (processRequest defaultOptions trOpsMapA) .finish).result
        = (processRequest defaultOptions trOpsMapA).result) := by
  have hmain := c10_finish_handler defaultOptions initSt
    (processRequest defaultOptions [.field "operations" (some exOpsX) false])
    (processRequest defaultOptions trOpsMapA) exOpsX (.obj [("x", .upload 0)])
    [("a", { id := 0, file := none, promise := .pending })] 9
    { id := 6, file := none, promise := .rejected errDisconnected }
    rfl rfl rfl rfl rfl rfl rfl rfl rfl rfl rfl rfl rfl rfl rfl rfl rfl
  exact ⟨rfl, rfl, rfl, rfl, hmain.1, hmain.2.2.1, hmain.2.2.2.2.1, hmain.2.2.2.2.2.1⟩

/-- Claim C5 (confirmed): per-file failures are lazy and never global.  A
mapped file part resolves its placeholder with the built `FileUpload` as
streaming begins, whatever the later outcome of its stream; the exit error
and the overall result are untouched and every other table entry is
unchanged.  The per-file error slot records the 413 limit error or the
stream error, and `createReadStream` throws the stored per-file error if
one exists, else the exit error if the response completed (released), and
otherwise returns a fresh read stream over the spooled bytes. -/
theorem c5_per_file_isolation (o : ProcessRequestOptions) (s : St) (fn other : String)
    (meta : FileMeta) (outc : FileOutcome) (tbl : List (String × Upload)) (u : Upload)
    (rel : Bool) (ex : Option Err) (e : Err)
    (hd : s.parserDestroyed = false) (hm : s.map = some tbl)
    (hlk : lookupU tbl fn = some u) (hp : u.promise = .pending)
    (hne : fn ≠ other) :
    step o s (.file fn meta outc)
        = { s with map := some (tblSet tbl fn
            { u with file := some (mkFile o meta outc),
                     promise := .resolved (mkFile o meta outc) }) } ∧
    (step o s (.file fn meta outc)).exitError = s.exitError ∧
    (step o s (.file fn meta outc)).result = s.result ∧
    lookupU (tblSet tbl fn
        { u with file := some (mkFile o meta outc),
                 promise := .resolved (mkFile o meta outc) }) other
      = lookupU tbl other ∧
    (mkFile o meta outc).fileError = fileErrorOf o outc ∧
    createReadStream (mkFile o meta .limit) rel ex = .error (errFileTooLarge o) ∧
    createReadStream (mkFile o meta (.err e)) rel ex = .error e ∧
    createReadStream (mkFile o meta .ok) false ex = .ok () ∧
    createReadStream (mkFile o meta .ok) true (some e) = .error e ∧
    createReadStream (mkFile o meta .ok) true none = .ok () := by
  have hmain : step o s (.file fn meta outc)
      = { s with map := some (tblSet tbl fn
          { u with file := some (mkFile o meta outc),
                   promise := .resolved (mkFile o meta outc) }) } := by
    rw [step_file o s fn meta outc hd, onFile_mapped o s fn meta outc tbl u hm hlk]
    simp [Upload.resolveWith, hp, Promise.resolveP]
  refine ⟨hmain, by rw [hmain], by rw [hmain],
    lookupU_tblSet_ne tbl fn other _ hne, rfl, rfl, ?_, ?_, rfl, rfl⟩
  · cases ex <;> rfl
  · cases ex <;> rfl

/-- Witness for C5: the mapped file part `a` hits the size limit; its
placeholder resolves, nothing global changes, and reading it throws the
413 error. -/
theorem c5_witness :
    (processRequest defaultOptions trOpsMapA).parserDestroyed = false ∧
    (processRequest defaultOptions trOpsMapA).map
        = some [("a", { id := 0, file := none, promise := .pending })] ∧
    lookupU [("a", { id := 0, file := none, promise := .pending })] "a"
        = some { id := 0, file := none, promise := .pending } ∧
    ({ id := 0, file := none, promise := .pending } : Upload).promise = .pending ∧
    ("a" : String) ≠ "zz" ∧
    ((step defaultOptions (processRequest defaultOptions trOpsMapA)
        (.file "a" exMeta .limit)).exitError
        = (processRequest defaultOptions trOpsMapA).exitError ∧
     (step defaultOptions (processRequest defaultOptions trOpsMapA)
        (.file "a" exMeta .limit)).result
        = (processRequest defaultOptions trOpsMapA).result ∧
     createReadStream (mkFile defaultOptions exMeta .limit) false none
        = .error (errFileTooLarge defaultOptions)) := by
  have hmain := c5_per_file_isolation defaultOptions
    (processRequest defaultOptions trOpsMapA) "a" "zz" exMeta .limit
    [("a", { id := 0, file := none, promise := .pending })]
    { id := 0, file := none, promise := .pending } false none errFileMissing
    rfl rfl rfl rfl (by decide)
  exact ⟨rfl, rfl, rfl, rfl, by decide, hmain.2.1, hmain.2.2.1, hmain.2.2.2.2.2.1⟩

/-- Claim C6 (confirmed): a file part event whose field name has no entry
in the placeholder table is drained and ignored: the whole run is exactly
the run without that file part event — same result outcome, same
operations tree, same placeholder table, whatever events follow. -/
theorem c6_extraneous_file_frame (o : ProcessRequestOptions) (pre post : List Event)
    (fn : String) (meta : FileMeta) (outc : FileOutcome) (tbl : List (String × Upload))
    (hm : (processRequest o pre).map = some tbl)
    (hlk : lookupU tbl fn = none) :
    processRequest o (pre ++ (.file fn meta outc) :: post)
      = processRequest o (pre ++ post) := by
  have hfold : ∀ X : List Event, processRequest o (pre ++ X)
      = List.foldl (step o) (processRequest o pre) X := by
    intro X
    rw [processRequest, processRequest, List.foldl_append]
  rw [hfold, hfold, List.foldl_cons]
  have hstep : step o (processRequest o pre) (.file fn meta outc)
      = processRequest o pre := by
    cases hd : (processRequest o pre).parserDestroyed with
    | true =>
      simp only [step]
      rw [if_pos hd]
    | false =>
      rw [step_file o _ fn meta outc hd]
      exact onFile_extraneous o _ fn meta outc tbl hm hlk
  rw [hstep]

/-- Witness for C6: an extraneous file part named `zzz` between the bound
map and the finish event changes nothing about the run. -/
theorem c6_witness :
    (processRequest defaultOptions trOpsMapA).map
        = some [("a", { id := 0, file := none, promise := .pending })] ∧
    lookupU [("a", { id := 0, file := none, promise := .pending })] "zzz" = none ∧
    processRequest defaultOptions (trOpsMapA ++ (.file "zzz" exMeta .ok) :: [.finish])
      = processRequest defaultOptions (trOpsMapA ++ [.finish]) := by
  refine ⟨rfl, rfl, ?_⟩
  exact c6_extraneous_file_frame defaultOptions trOpsMapA [.finish] "zzz" exMeta .ok
    [("a", { id := 0, file := none, promise := .pending })] rfl rfl

theorem onField_map_bind_ok (o : ProcessRequestOptions) (s : St) (t0 : JVal)
    (entries : List (String × JVal)) (T : JVal) (tbl2 : List (String × Upload))
    (nid2 : Nat) (hops : s.operations = some t0)
    (hexc : exceeds entries.length o.maxFiles = false)
    (hbe : bindEntries t0 [] s.nextId entries = (T, tbl2, nid2, none)) :
    onField o s "map" (some (.obj entries)) false
      = { s with operations := some T, map := some tbl2, nextId := nid2,
                 result := s.result.resolveP T } := by
  unfold onField
  simp only [hops]
  rw [hexc, hbe]
  rfl

theorem onField_map_bind_err (o : ProcessRequestOptions) (s : St) (t0 : JVal)
    (entries : List (String × JVal)) (T : JVal) (tbl2 : List (String × Upload))
    (nid2 : Nat) (e : Err) (hops : s.operations = some t0)
    (hexc : exceeds entries.length o.maxFiles = false)
    (hbe : bindEntries t0 [] s.nextId entries = (T, tbl2, nid2, some e)) :
    onField o s "map" (some (.obj entries)) false
      = exit { s with operations := some T, map := some tbl2, nextId := nid2 }
          e false := by
  unfold onField
  simp only [hops]
  rw [hexc, hbe]
  rfl

theorem resultPathVal_resolved (s2 : St) (t : JVal) (p : String)
    (h : s2.result = .resolved t) :
    resultPathVal s2 p = getPath t (parsePath p) := by
  simp only [resultPathVal, h]

/-- Claim C1 (corrected): when the `map` field is fully bound without
error, the outer promise — pending until then — resolves at map-binding
time, before any file part is processed, with the operations tree in
which, provided no listed path (across all entries and positions, as
parsed into segments) is equal to or an initial segment of another listed
path, the location at each path listed by entry number `i` holds a
reference to the placeholder with id `nextId + i` — the same single
placeholder instance at all of the paths of that entry.  The original
claim had no path-disjointness proviso; with overlapping listed paths a
later binding overwrites an earlier entry's placeholder — see the
counterexample. -/
theorem c1_map_binding_embeds_placeholders (o : ProcessRequestOptions) (s : St)
    (entries : List (String × JVal)) (t0 : JVal) (i : Nat) (nm : String)
    (ps : List JVal) (pstr : String)
    (hd : s.parserDestroyed = false) (hf : s.finished = false)
    (hcnt : s.fieldCount < 2) (hops : s.operations = some t0)
    (hres : s.result = .pending)
    (hok : (step o s (.field "map" (some (.obj entries)) false)).exitError = none)
    (hnc : noConflicts (allSegPaths entries) = true)
    (hent : entries[i]? = some (nm, JVal.arr ps))
    (hp : JVal.str pstr ∈ ps) :
    resultPathVal (step o s (.field "map" (some (.obj entries)) false)) pstr
      = some (JVal.upload (s.nextId + i)) := by
  have hopsb : ({ s with fieldCount := s.fieldCount + 1 } : St).operations = some t0 := hops
  rw [step_field o s "map" (some (.obj entries)) false hd hf hcnt] at hok ⊢
  by_cases hexc : exceeds entries.length o.maxFiles = true
  · rw [onField_map_exceeds o _ t0 entries hopsb hexc] at hok
    have hsome := exit_exitError_isSome ({ s with fieldCount := s.fieldCount + 1 } : St)
      (errTooManyFiles o) false
    rw [hok] at hsome
    simp at hsome
  · have hexc2 : exceeds entries.length o.maxFiles = false := by
      rw [Bool.not_eq_true] at hexc
      exact hexc
    cases hre : bindEntries t0 [] s.nextId entries with
    | mk T rest3 =>
      obtain ⟨tbl2, nid2, oerr⟩ := rest3
      cases oerr with
      | some e2 =>
        rw [onField_map_bind_err o _ t0 entries T tbl2 nid2 e2 hopsb hexc2 hre] at hok
        have hsome := exit_exitError_isSome
          ({ s with fieldCount := s.fieldCount + 1, operations := some T,
                    map := some tbl2, nextId := nid2 } : St) e2 false
        rw [hok] at hsome
        simp at hsome
      | none =>
        rw [onField_map_bind_ok o _ t0 entries T tbl2 nid2 hopsb hexc2 hre] at hok ⊢
        have hres2 : ({ s with fieldCount := s.fieldCount + 1, operations := some T, map := some tbl2, nextId := nid2, result := ({ s with fieldCount := s.fieldCount + 1 } : St).result.resolveP T } : St).result = .resolved T := by
          show s.result.resolveP T = .resolved T
          rw [hres]
          rfl
        rw [resultPathVal_resolved _ T pstr hres2]
        have hsetAll := bindEntries_ops entries t0 [] s.nextId (by rw [hre])
        rw [hre] at hsetAll
        simp at hsetAll
        have hmem := entryPairs_mem entries s.nextId i nm ps pstr hent hp
        have hfst : (entryPairs s.nextId entries).map Prod.fst = allSegPaths entries := by
          rw [allSegPaths]
          exact entryPairs_fst entries s.nextId 0
        exact setAll_get (entryPairs s.nextId entries) t0 T hsetAll
          (by rw [hfst]; exact hnc)
          (fun pv hm => entryPairs_ne_nil entries s.nextId pv hm)
          (parsePath pstr, JVal.upload (s.nextId + i)) hmem

/-- Counterexample to C1 as stated: two map entries list the same path
`x`; the binding succeeds and the outer promise resolves, but the location
at `x` holds the second entry's placeholder (id 1), not the first entry's
placeholder (id 0) as the claim requires for every entry and path. -/
theorem c1_counterexample :
    (processRequest defaultOptions trC1).exitError = none ∧
    (processRequest defaultOptions trC1).result
        = .resolved (.obj [("x", .upload 1)]) ∧
    (processRequest defaultOptions trC1).map
        = some [("a", { id := 0, file := none, promise := .pending }),
                ("b", { id := 1, file := none, promise := .pending })] ∧
    resultPathVal (processRequest defaultOptions trC1) "x" = some (.upload 1) ∧
    resultPathVal (processRequest defaultOptions trC1) "x" ≠ some (.upload 0) := by
  refine ⟨rfl, rfl, rfl, rfl, ?_⟩
  intro h
  have h1 : resultPathVal (processRequest defaultOptions trC1) "x"
      = some (.upload 1) := rfl
  rw [h1] at h
  injection h with h2
  injection h2 with h3
  exact absurd h3 (by decide)

/-- Witness for C1: a two-entry map with the disjoint paths `x` and `y`;
the location at `y` holds the placeholder of entry number 1. -/
theorem c1_witness :
    (processRequest defaultOptions
        [.field "operations" (some exOpsXY) false]).parserDestroyed = false ∧
    (processRequest defaultOptions
        [.field "operations" (some exOpsXY) false]).operations = some exOpsXY ∧
    (processRequest defaultOptions
        [.field "operations" (some exOpsXY) false]).result = .pending ∧
    (step defaultOptions
        (processRequest defaultOptions [.field "operations" (some exOpsXY) false])
        (.field "map" (some (.obj [("a", JVal.arr [.str "x"]),
          ("b", JVal.arr [.str "y"])])) false)).exitError = none ∧
    noConflicts (allSegPaths
        [("a", JVal.arr [.str "x"]), ("b", JVal.arr [.str "y"])]) = true ∧
    ([("a", JVal.arr [.str "x"]), ("b", JVal.arr [.str "y"])]
        : List (String × JVal))[1]? = some ("b", JVal.arr [.str "y"]) ∧
    JVal.str "y" ∈ [JVal.str "y"] ∧
    resultPathVal (step defaultOptions
        (processRequest defaultOptions [.field "operations" (some exOpsXY) false])
        (.field "map" (some (.obj [("a", JVal.arr [.str "x"]),
          ("b", JVal.arr [.str "y"])])) false)) "y"
      = some (JVal.upload
          ((processRequest defaultOptions
            [.field "operations" (some exOpsXY) false]).nextId + 1)) := by
  refine ⟨rfl, rfl, rfl, rfl, rfl, rfl, List.mem_cons_self _ _, ?_⟩
  exact c1_map_binding_embeds_placeholders defaultOptions
    (processRequest defaultOptions [.field "operations" (some exOpsXY) false])
    [("a", JVal.arr [.str "x"]), ("b", JVal.arr [.str "y"])] exOpsXY 1 "b"
    [.str "y"] "y" rfl rfl (by decide) rfl rfl rfl rfl rfl
    (List.mem_cons_self _ _)

end GraphQLUpload
